import Mathlib

/-!
# RPiRadio: `Examples/carrier_generator.c`

A shallow embedding of the carrier generator and proofs about it.

* Machine words are natural numbers reduced modulo `2 ^ 32` where the C code
  stores into a `uint32_t`.
* The peripheral bus is an explicit parameter: `Hardware` says which word a load
  returns after a given history of loads and stores.  The program's effect is
  the chronological `trace` of bus events it appends, together with what it
  prints and how it ends.
* The two polling loops take a fuel argument (number of loop tests allowed).
* `run_forever` installs `exit_handler` for SIGQUIT and SIGINT; the signal
  delivered during `pause` is a parameter, and a signal without handler ends
  the process where it stands.
* The divisor computation follows the C expression step by step: a `double`
  division, the cast to `float`, the (exact) scaling by `1 << 12`, and the
  truncating conversion to `uint32_t`.
-/

namespace CarrierGenerator

/-! ## Binary floating point, as far as the divisor needs it -/

/-- Fuelled worker of `ilog2`. -/
def ilog2Aux : Nat → Nat → Nat
  | 0, _ => 0
  | fuel + 1, n => if n < 2 then 0 else ilog2Aux fuel (n / 2) + 1

/-- Index of the highest set bit of `n` (and `0` for `n = 0`). -/
def ilog2 (n : Nat) : Nat := ilog2Aux n n

/-- The integer nearest to `n / d`, ties going to the even neighbour. -/
def roundHalfEven (n d : Nat) : Nat :=
  if 2 * (n % d) < d then n / d
  else if d < 2 * (n % d) then n / d + 1
  else if (n / d) % 2 = 0 then n / d
  else n / d + 1

/-- A non-negative binary fraction `num / den`; `den` is a power of two. -/
structure Dyadic where
  num : Nat
  den : Nat
deriving DecidableEq, Repr

/-- Round-to-nearest-even of the positive rational `a / b` to `p` significant
bits (IEEE 754 `binary64` for `p = 53`, `binary32` for `p = 24`).  The exponent
range is not modelled: every value the divisor computation meets lies between
`2 ^ (-4)` and `2 ^ 29`, far inside the normal range of both formats. -/
def roundSig (p a b : Nat) : Dyadic :=
  if b ≤ a then
    if ilog2 (a / b) + 1 ≤ p then
      ⟨roundHalfEven (a * 2 ^ (p - 1 - ilog2 (a / b))) b, 2 ^ (p - 1 - ilog2 (a / b))⟩
    else
      ⟨roundHalfEven a (b * 2 ^ (ilog2 (a / b) + 1 - p)) * 2 ^ (ilog2 (a / b) + 1 - p), 1⟩
  else
    ⟨roundHalfEven (a * 2 ^ (p + ilog2 ((b - 1) / a))) b, 2 ^ (p + ilog2 ((b - 1) / a))⟩

/-! ## Register addresses and flags -/

def BASE_ADDRESS : Nat := 0x7E000000

/-- General Purpose I/O function select registers. -/
def GPFSEL : List Nat :=
  [0x7E200000, 0x7E200004, 0x7E200008, 0x7E20000C, 0x7E200010, 0x7E200014]

def FLAGS_PER_REGISTER : Nat := 10

/-- GPIO function flags (three bits each). -/
inductive GP_FUNCTION
  | GP_INPUT
  | GP_OUTPUT
  | GP_AF0
  | GP_AF1
  | GP_AF2
  | GP_AF3
  | GP_AF4
  | GP_AF5
deriving DecidableEq, Repr

/-- Numeric value of a `GP_FUNCTION` enumerator. -/
def GP_FUNCTION.val : GP_FUNCTION → Nat
  | .GP_INPUT => 0b000
  | .GP_OUTPUT => 0b001
  | .GP_AF0 => 0b100
  | .GP_AF1 => 0b101
  | .GP_AF2 => 0b110
  | .GP_AF3 => 0b111
  | .GP_AF4 => 0b011
  | .GP_AF5 => 0b010

/-- Clock Manager General Purpose Clocks Control registers. -/
def CM_GPCTL : List Nat := [0x7E101070, 0x7E101078, 0x7E101080]

/-- Clock Manager General Purpose Clock Divisors registers. -/
def CM_GPDIV : List Nat := [0x7E101074, 0x7E10107C, 0x7E101084]

/-- Clock Managers General Purpose Clocks. -/
inductive CM_GPCLK
  | CM_GPCLK0
  | CM_GPCLK1
  | CM_GPCLK2
deriving DecidableEq, Repr

def CM_GPCLK.val : CM_GPCLK → Nat
  | .CM_GPCLK0 => 0
  | .CM_GPCLK1 => 1
  | .CM_GPCLK2 => 2

def CM_PASSWD : Nat := 0x5A <<< 24
def CM_ENAB : Nat := 1 <<< 4
def CM_BUSY : Nat := 1 <<< 7

/-- Clock Manager Control register mash flags. -/
inductive CM_MASH
  | CM_MASH_INT
  | CM_MASH_1S
  | CM_MASH_2S
  | CM_MASH_3S
deriving DecidableEq, Repr

def CM_MASH.val : CM_MASH → Nat
  | .CM_MASH_INT => 0 <<< 9
  | .CM_MASH_1S => 1 <<< 9
  | .CM_MASH_2S => 2 <<< 9
  | .CM_MASH_3S => 3 <<< 9

/-- Clock Manager Control register source flags. -/
inductive CM_SRC
  | CM_GND
  | CM_OSCILLATOR
  | CM_TESTDEBUD0
  | CM_TESTDEBUG1
  | CM_PLLA
  | CM_PLLC
  | CM_PLLD
  | CM_HDMI
deriving DecidableEq, Repr

def CM_SRC.val : CM_SRC → Nat
  | .CM_GND => 0
  | .CM_OSCILLATOR => 1
  | .CM_TESTDEBUD0 => 2
  | .CM_TESTDEBUG1 => 3
  | .CM_PLLA => 4
  | .CM_PLLC => 5
  | .CM_PLLD => 6
  | .CM_HDMI => 7

/-- PLLD clock source frequency (500 MHz). -/
def PLLDFREQ : Nat := 500000000

/-- Address of the control register of a clock generator. -/
def ctlReg (gpclk_number : CM_GPCLK) : Nat := CM_GPCTL.getD gpclk_number.val 0

/-- Address of the divisor register of a clock generator. -/
def divReg (gpclk_number : CM_GPCLK) : Nat := CM_GPDIV.getD gpclk_number.val 0

/-! ## The process and its environment -/

/-- One access to a peripheral register, by bus address. -/
inductive Event
  | load (address value : Nat)
  | store (address value : Nat)
deriving DecidableEq, Repr

/-- The peripherals as the program observes them: the word a load from
`address` returns after the given history of bus events. -/
abbrev Hardware := List Event → Nat → Nat

/-- What the program depends on outside itself. -/
structure Platform where
  /-- the peripheral bus -/
  bus : Hardware
  /-- whether `open("/dev/mem", O_RDWR | O_SYNC)` succeeds -/
  devmem : Bool
  /-- the result of `mmap`: `none` is `MAP_FAILED` -/
  mmap : Option Nat
  /-- whether `signal(signum, handler)` succeeds, that is, does not return
  `SIG_ERR` -/
  signal : Int → Bool

/-- The 32-bit word a load from `address` yields after the history `t`. -/
def Platform.word (pf : Platform) (t : List Event) (address : Nat) : Nat :=
  pf.bus t address % 2 ^ 32

/-- The state of the running process. -/
structure Process where
  /-- the global `MAP_ADDRESS`; `0` is `NULL` -/
  MAP_ADDRESS : Nat
  /-- bus events so far, oldest first -/
  trace : List Event
  /-- what has been written to standard output, oldest first -/
  stdout : List String
  /-- the signals for which `exit_handler` is installed; every other signal
  has its default action -/
  handlers : List Int

/-- How a call ends. -/
inductive Result (α : Type)
  /-- normal return -/
  | ret (value : α) (s : Process)
  /-- the process called `exit(status)` -/
  | exit (status : Int) (s : Process)
  /-- the C standard leaves the behaviour undefined -/
  | undefined (s : Process)
  /-- a polling loop used up its fuel -/
  | spinning (s : Process)
  /-- the default action of signal `signum` ended the process -/
  | killed (signum : Int) (s : Process)

/-- The process state a result carries. -/
def Result.state {α : Type} : Result α → Process
  | .ret _ s => s
  | .exit _ s => s
  | .undefined s => s
  | .spinning s => s
  | .killed _ s => s

/-- Sequencing: go on with `k` after a normal return. -/
def Result.bind {α β : Type} (r : Result α) (k : α → Process → Result β) : Result β :=
  match r with
  | .ret a s => k a s
  | .exit c s => .exit c s
  | .undefined s => .undefined s
  | .spinning s => .spinning s
  | .killed c s => .killed c s

/-- The libc call `puts`. -/
def puts (line : String) (s : Process) : Process :=
  { s with stdout := s.stdout ++ [line ++ "\n"] }

/-- Bitwise complement of a 32-bit word. -/
def not32 (x : Nat) : Nat := 2 ^ 32 - 1 - x % 2 ^ 32

/-! ## The program -/

/-- Map a physical address in the virtual address space of this process. -/
def map_memory (pf : Platform) (s : Process) : Result Nat :=
  if pf.devmem then
    match pf.mmap with
    | some vaddr => .ret vaddr s
    | none => .exit (-1) (puts "Failed to map memory" s)
  else .exit (-1) (puts "Can't open /dev/mem\nRun as root!" s)

/-- Maps the correct peripheral address in the virtual address space of this
process and keeps the address in `MAP_ADDRESS`. -/
def map_peripheral (pf : Platform) (s : Process) : Result Unit :=
  (map_memory pf s).bind fun vaddr s1 => .ret () { s1 with MAP_ADDRESS := vaddr }

/-- Check if peripherals are mapped. -/
def check_peripheral (pf : Platform) (s : Process) : Result Unit :=
  if s.MAP_ADDRESS = 0 then map_peripheral pf s else .ret () s

/-- The macro `SET` behind `check_peripheral`: a 32-bit store to the register
with bus address `address`, reached through the mapped window. -/
def reg_set (pf : Platform) (address value : Nat) (s : Process) : Result Unit :=
  (check_peripheral pf s).bind fun _ s1 =>
    .ret () { s1 with trace := s1.trace ++ [Event.store address (value % 2 ^ 32)] }

/-- The macro `GET` behind `check_peripheral`: a 32-bit load from the register
with bus address `address`. -/
def reg_get (pf : Platform) (address : Nat) (s : Process) : Result Nat :=
  (check_peripheral pf s).bind fun _ s1 =>
    .ret (pf.word s1.trace address)
      { s1 with trace := s1.trace ++ [Event.load address (pf.word s1.trace address)] }

/-- The word `set_gp_func` writes back, from the word it read. -/
def gpfselWord (value pin_number : Nat) (function : GP_FUNCTION) : Nat :=
  ((value &&& not32 (0b111 <<< (3 * pin_number))) ||| (function.val <<< (3 * pin_number))) % 2 ^ 32

/-- Set gpio pin function (pin number is in BCM format). -/
def set_gp_func (pf : Platform) (pin : Nat) (function : GP_FUNCTION) (s : Process) :
    Result Unit :=
  if pin ≤ 53 then
    (reg_get pf (GPFSEL.getD (pin / FLAGS_PER_REGISTER) 0) s).bind fun value s1 =>
      reg_set pf (GPFSEL.getD (pin / FLAGS_PER_REGISTER) 0)
        (gpfselWord value (pin % FLAGS_PER_REGISTER) function) s1
  else .exit (-1) (puts "Invalid pin number!" s)

/-- Write the disable word until the busy flag turns off; the first argument
after the source is the fuel. -/
def stop_clk_generator (pf : Platform) (gpclk_number : CM_GPCLK) (clk_source : CM_SRC) :
    Nat → Process → Result Unit
  | 0, s => .spinning s
  | fuel + 1, s =>
    (reg_get pf (ctlReg gpclk_number) s).bind fun v s1 =>
      if v &&& CM_BUSY ≠ 0 then
        (reg_set pf (ctlReg gpclk_number) (CM_PASSWD ||| clk_source.val) s1).bind fun _ s2 =>
          stop_clk_generator pf gpclk_number clk_source fuel s2
      else .ret () s1

/-- The enabling loop that ends `start_clk_generator`. -/
def enable_loop (pf : Platform) (gpclk_number : CM_GPCLK) : Nat → Process → Result Unit
  | 0, s => .spinning s
  | fuel + 1, s =>
    (reg_get pf (ctlReg gpclk_number) s).bind fun v s1 =>
      if v &&& CM_BUSY = 0 then
        (reg_get pf (ctlReg gpclk_number) s1).bind fun r s2 =>
          (reg_set pf (ctlReg gpclk_number) (CM_PASSWD ||| r ||| CM_ENAB) s2).bind fun _ s3 =>
            enable_loop pf gpclk_number fuel s3
      else .ret () s1

/-- Disable the generator, set the divisor, set source and MASH, then enable. -/
def start_clk_generator (pf : Platform) (gpclk_number : CM_GPCLK) (clock_divisor : Nat)
    (clk_source : CM_SRC) (mash_stage : CM_MASH) (fuel : Nat) (s : Process) : Result Unit :=
  (stop_clk_generator pf gpclk_number clk_source fuel s).bind fun _ s1 =>
    (reg_set pf (divReg gpclk_number) (CM_PASSWD ||| clock_divisor) s1).bind fun _ s2 =>
      (reg_set pf (ctlReg gpclk_number) (CM_PASSWD ||| mash_stage.val ||| clk_source.val) s2).bind
        fun _ s3 => enable_loop pf gpclk_number fuel s3

/-- The integer part of the C expression `((float)(PLLDFREQ / frequency)) * (1 << 12)`
for a non-zero frequency: the quotient is computed as a `double`, the cast
rounds it to `float`, and the product with `4096` is exact in `float`. -/
def scaledQuotient (frequency : Nat) : Nat :=
  (roundSig 24 (roundSig 53 PLLDFREQ frequency).num (roundSig 53 PLLDFREQ frequency).den).num
      * 2 ^ 12
    / (roundSig 24 (roundSig 53 PLLDFREQ frequency).num (roundSig 53 PLLDFREQ frequency).den).den

/-- The local `clock_divisor` of `set_clk_frequency`: the expression above
converted to `uint32_t`, which drops the fraction.  `none` where C leaves the
conversion undefined: a zero frequency (the quotient is infinite), or a value
that does not fit 32 bits. -/
def clock_divisor (frequency : Nat) : Option Nat :=
  if frequency = 0 then none
  else if scaledQuotient frequency < 2 ^ 32 then some (scaledQuotient frequency)
  else none

/-- Set clock generator frequency. -/
def set_clk_frequency (pf : Platform) (gpclk_number : CM_GPCLK) (frequency : Nat) (fuel : Nat)
    (s : Process) : Result Unit :=
  match clock_divisor frequency with
  | some d => start_clk_generator pf gpclk_number d .CM_PLLD .CM_MASH_1S fuel s
  | none => .undefined s

/-- Stop clock generator and reset GPIO4 to OUTPUT function. -/
def exit_handler (pf : Platform) (signum : Int) (fuel : Nat) (s : Process) : Result Unit :=
  (set_gp_func pf 4 .GP_OUTPUT (puts "Cleaning resources..." s)).bind fun _ s1 =>
    (stop_clk_generator pf .CM_GPCLK0 .CM_PLLD fuel s1).bind fun _ s2 => .exit signum s2

/-- The libc predicate `isspace` in the C locale. -/
def isspace (c : Char) : Bool := c.toNat = 32 || (9 ≤ c.toNat && c.toNat ≤ 13)

/-- The digits-reading loop of `atoi`: stops at the first character that is not
a decimal digit. -/
def atoiDigits : Nat → List Char → Nat
  | acc, [] => acc
  | acc, c :: cs =>
    if 48 ≤ c.toNat ∧ c.toNat ≤ 57 then atoiDigits (acc * 10 + (c.toNat - 48)) cs else acc

/-- The value `atoi` reads, before the range of `int` is considered: leading
white space, an optional sign (`45` is the minus, `43` the plus), digits. -/
def atoiValue : List Char → Int
  | [] => 0
  | c :: cs =>
    if c.toNat = 45 then -(atoiDigits 0 cs : Int)
    else if c.toNat = 43 then (atoiDigits 0 cs : Int)
    else (atoiDigits 0 (c :: cs) : Int)

/-- The libc call `atoi`, with a 32-bit `int`; `none` where the value is not
representable and the C standard leaves the behaviour undefined. -/
def atoi (text : String) : Option Int :=
  if -(2 ^ 31) ≤ atoiValue (text.toList.dropWhile isspace)
      ∧ atoiValue (text.toList.dropWhile isspace) < 2 ^ 31 then
    some (atoiValue (text.toList.dropWhile isspace))
  else none

/-- The local `carrier_frequency` of `main` once the arguments are read: the
default, or `atoi(argv[1])` converted to `uint32_t`. -/
def carrier_frequency (argv : List String) : Option Nat :=
  if 1 < argv.length then (atoi (argv.getD 1 "")).map fun z => (z % 2 ^ 32).toNat
  else some 104500000

/-- The line `printf("Transmitting carrier on %d Hz\n", carrier_frequency)`
prints; `%d` shows the word as a signed `int`. -/
def transmittingLine (frequency : Nat) : String :=
  "Transmitting carrier on "
    ++ toString (if frequency < 2 ^ 31 then (frequency : Int) else (frequency : Int) - 2 ^ 32)
    ++ " Hz\n"

/-- The signal number of `SIGINT` (ctrl-c) on Linux. -/
def SIGINT : Int := 2

/-- The signal number of `SIGQUIT` (ctrl-backslash) on Linux. -/
def SIGQUIT : Int := 3

/-- Set signal handler; the handler passed is always `exit_handler`.  Where
`signal` returns `SIG_ERR` nothing is installed and
`printf("Set signal (%d) error", signum)` reports it. -/
def set_signal_handler (pf : Platform) (signum : Int) (s : Process) : Process :=
  if pf.signal signum then { s with handlers := signum :: s.handlers }
  else { s with stdout := s.stdout ++ ["Set signal (" ++ toString signum ++ ") error"] }

/-- The libc call `pause`, ended by the delivery of `signum` (a signal that
is handled, or one whose default action ends the process): an installed
handler runs, and `pause` returns if the handler does; without a handler the
process is killed where it stands. -/
def pause (pf : Platform) (signum : Int) (fuel : Nat) (s : Process) : Result Unit :=
  if signum ∈ s.handlers then exit_handler pf signum fuel s else .killed signum s

/-- Set handler to clean resources on exit signals (`SIGQUIT`, then `SIGINT`),
then wait for signals. -/
def run_forever (pf : Platform) (signum : Int) (fuel : Nat) (s : Process) : Result Unit :=
  pause pf signum fuel (set_signal_handler pf SIGINT (set_signal_handler pf SIGQUIT s))

/-- The program: `argv` is the command line, `signum` the signal delivered
while the process waits in `pause`. -/
def main (pf : Platform) (argv : List String) (signum : Int) (fuel : Nat) (s : Process) :
    Result Int :=
  match carrier_frequency argv with
  | none => .undefined s
  | some f =>
    (set_gp_func pf 4 .GP_AF0 s).bind fun _ s1 =>
      (set_clk_frequency pf .CM_GPCLK0 f fuel s1).bind fun _ s2 =>
        (run_forever pf signum fuel
          { s2 with stdout := s2.stdout ++ [transmittingLine f] }).bind fun _ s3 => .ret 0 s3

/-- The process as the kernel starts it. -/
def Process.start : Process :=
  { MAP_ADDRESS := 0, trace := [], stdout := [], handlers := [] }

/-! ## Observations on traces, and hardware behaviours -/

/-- The stores of a trace, oldest first, as (address, word) pairs. -/
def stores : List Event → List (Nat × Nat)
  | [] => []
  | .store a w :: rest => (a, w) :: stores rest
  | .load _ _ :: rest => stores rest

/-- One step of `lastStore`. -/
def lastStoreStep (address : Nat) (acc : Option Nat) : Event → Option Nat
  | .store a w => if a = address then some w else acc
  | .load _ _ => acc

/-- The word most recently stored to `address`, if any. -/
def lastStore (address : Nat) (t : List Event) : Option Nat :=
  t.foldl (lastStoreStep address) none

/-- The register at `address` is a plain memory cell holding `v0` at first:
a load returns what was stored last. -/
def MemoryCell (bus : Hardware) (address v0 : Nat) : Prop :=
  ∀ t, bus t address % 2 ^ 32 = (lastStore address t).getD v0 % 2 ^ 32

/-- The clock generator behind the control register `ctl` answers at once: its
BUSY flag reads as the ENAB bit of the last word stored to `ctl`, and as
`busy0` while nothing has been stored. -/
def BusyFollowsEnab (bus : Hardware) (ctl : Nat) (busy0 : Bool) : Prop :=
  ∀ t, (bus t ctl % 2 ^ 32 &&& CM_BUSY ≠ 0) ↔
    (match lastStore ctl t with
     | some w => w &&& CM_ENAB ≠ 0
     | none => busy0 = true)

/-- One bus event applied to a register file: a word stored to a clock control
register is kept with its top byte cleared and its BUSY flag made equal to
its ENAB bit; any other store is kept as it is. -/
def regStep (regs : Nat → Nat) : Event → Nat → Nat
  | .load _ _ => regs
  | .store a w => fun b =>
    if b = a then
      if a ∈ CM_GPCTL then
        if w &&& CM_ENAB ≠ 0 then (w % 2 ^ 24) ||| CM_BUSY else (w % 2 ^ 24) &&& not32 CM_BUSY
      else w % 2 ^ 32
    else regs b

/-- Opening and mapping the peripheral window succeed on this platform. -/
def Platform.Mappable (pf : Platform) : Prop :=
  pf.devmem = true ∧ pf.mmap.isSome = true

/-- The process after it has performed the bus events `evs` on a platform where
mapping succeeds: the window is mapped if it was not, and the events are logged. -/
def Process.after (pf : Platform) (s : Process) (evs : List Event) : Process :=
  { MAP_ADDRESS := if s.MAP_ADDRESS = 0 then pf.mmap.getD 0 else s.MAP_ADDRESS
    trace := s.trace ++ evs
    stdout := s.stdout
    handlers := s.handlers }

/-- A register-file model of the SoC started from the register contents `regs`. -/
def registerFile (regs : Nat → Nat) : Hardware :=
  fun t address => t.foldl regStep regs address

/-- A board on which mapping and `signal` succeed and all registers read zero
at first. -/
def board : Platform :=
  { bus := registerFile (fun _ => 0), devmem := true, mmap := some 0x76F00000,
    signal := fun _ => true }

/-- The process state `t` continues `s` by bus events that all satisfy `P`. -/
def Emits (P : Event → Prop) (s t : Process) : Prop :=
  ∃ evs, t.trace = s.trace ++ evs ∧ ∀ e ∈ evs, P e

/-- The event is a store to `address`. -/
def Event.isStoreTo (address : Nat) : Event → Prop
  | .store a _ => a = address
  | .load _ _ => False

/-- The event is a load from `ctl` or a store to `ctl`. -/
def Event.isOn (ctl : Nat) : Event → Prop
  | .store a _ => a = ctl
  | .load a _ => a = ctl

/-- The event is a load, a store to GPFSEL0, or the store of the word
`0x5A000006` to CM_GP0CTL. -/
def Event.isCleanup : Event → Prop
  | .load _ _ => True
  | .store a w => a = 0x7E200000 ∨ (a = 0x7E101070 ∧ w = 0x5A000006)

/-- The event is a load, or a store to CM_GP0DIV or CM_GP0CTL of a 32-bit word
whose bits 31..24 are the password `0x5A`. -/
def Event.hasPassword : Event → Prop
  | .load _ _ => True
  | .store a w => (a = 0x7E101074 ∨ a = 0x7E101070) ∧ w < 2 ^ 32 ∧ w >>> 24 = 0x5A

/-- The character of a decimal digit. -/
def digitChar (d : Nat) : Char := Char.ofNat (48 + d)

/-- The decimal numeral of `n` as a command-line argument (empty for zero). -/
def decimal (n : Nat) : String :=
  String.mk ((Nat.digits 10 n).reverse.map digitChar)

/-! # Theorems -/

/-! ## Words and bits -/

theorem testBit_not32 (x j : Nat) :
    (not32 x).testBit j = (decide (j < 32) && !x.testBit j) := by
  have hx : x % 2 ^ 32 < 2 ^ 32 := Nat.mod_lt _ (by positivity)
  have h : not32 x = 2 ^ 32 - (x % 2 ^ 32 + 1) := by unfold not32; omega
  rw [h, Nat.testBit_two_pow_sub_succ hx, Nat.testBit_mod_two_pow]
  by_cases hj : j < 32 <;> simp [hj]

theorem testBit_seven (i : Nat) : (7 : Nat).testBit i = decide (i < 3) := by
  have h : (7 : Nat) = 2 ^ 3 - 1 := by norm_num
  rw [h, Nat.testBit_two_pow_sub_one]

theorem testBit_small {c i : Nat} (hc : c < 8) (hi : 3 ≤ i) : c.testBit i = false := by
  apply Nat.testBit_lt_two_pow
  calc c < 2 ^ 3 := by simpa using hc
    _ ≤ 2 ^ i := Nat.pow_le_pow_right (by norm_num) hi

theorem GP_FUNCTION.val_lt (function : GP_FUNCTION) : function.val < 8 := by
  cases function <;> decide

theorem testBit_gpfselWord (value k : Nat) (function : GP_FUNCTION) (j : Nat) :
    (gpfselWord value k function).testBit j =
      (decide (j < 32) &&
        (if 3 * k ≤ j ∧ j < 3 * k + 3 then function.val.testBit (j - 3 * k)
         else value.testBit j)) := by
  unfold gpfselWord
  rw [Nat.testBit_mod_two_pow, Nat.testBit_or, Nat.testBit_and, testBit_not32,
    Nat.testBit_shiftLeft, Nat.testBit_shiftLeft, testBit_seven]
  by_cases hj : j < 32 <;> simp only [hj, decide_True, decide_False, Bool.true_and,
    Bool.false_and]
  by_cases h1 : 3 * k ≤ j
  · by_cases h2 : j < 3 * k + 3
    · have h3 : j - 3 * k < 3 := by omega
      simp [h1, h2, h3]
    · have h3 : ¬ j - 3 * k < 3 := by omega
      have h4 : function.val.testBit (j - 3 * k) = false :=
        testBit_small function.val_lt (by omega)
      simp [h1, h2, h3, h4]
  · have h1b : ¬ j ≥ 3 * k := h1
    simp [h1, h1b]

theorem gpfselWord_lt (value k : Nat) (function : GP_FUNCTION) :
    gpfselWord value k function < 2 ^ 32 := by
  unfold gpfselWord
  exact Nat.mod_lt _ (by positivity)

/-- The three-bit field of pin `k` in the written word is the function code. -/
theorem gpfselWord_field (value k : Nat) (function : GP_FUNCTION) (hk : k < 10) :
    (gpfselWord value k function >>> (3 * k)) &&& 0b111 = function.val := by
  apply Nat.eq_of_testBit_eq
  intro i
  rw [Nat.testBit_and, Nat.testBit_shiftRight, testBit_gpfselWord, testBit_seven]
  by_cases hi : i < 3
  · have h1 : 3 * k + i < 32 := by omega
    have h2 : 3 * k ≤ 3 * k + i ∧ 3 * k + i < 3 * k + 3 := by omega
    simp [hi, h1, h2]
  · have h3 : function.val.testBit i = false := testBit_small function.val_lt (by omega)
    simp [hi, h3]

/-! ## Register access on a platform where mapping succeeds -/

theorem after_after (pf : Platform) (s : Process) (e1 e2 : List Event) :
    (s.after pf e1).after pf e2 = s.after pf (e1 ++ e2) := by
  unfold Process.after
  by_cases h : s.MAP_ADDRESS = 0 <;> simp [h, List.append_assoc]

theorem after_trace (pf : Platform) (s : Process) (evs : List Event) :
    (s.after pf evs).trace = s.trace ++ evs := rfl

theorem after_stdout (pf : Platform) (s : Process) (evs : List Event) :
    (s.after pf evs).stdout = s.stdout := rfl

theorem check_peripheral_ok {pf : Platform} (h : pf.Mappable) (s : Process) :
    check_peripheral pf s = .ret () (s.after pf []) := by
  obtain ⟨h1, h2⟩ := h
  obtain ⟨a, ha⟩ := Option.isSome_iff_exists.mp h2
  unfold check_peripheral map_peripheral map_memory Process.after
  by_cases h0 : s.MAP_ADDRESS = 0 <;> simp [h0, h1, ha, Result.bind]

theorem reg_get_ok {pf : Platform} (h : pf.Mappable) (address : Nat) (s : Process) :
    reg_get pf address s =
      .ret (pf.word s.trace address) (s.after pf [Event.load address (pf.word s.trace address)]) := by
  unfold reg_get
  rw [check_peripheral_ok h]
  simp [Result.bind, Process.after]

theorem reg_set_ok {pf : Platform} (h : pf.Mappable) (address value : Nat) (s : Process) :
    reg_set pf address value s = .ret () (s.after pf [Event.store address (value % 2 ^ 32)]) := by
  unfold reg_set
  rw [check_peripheral_ok h]
  simp [Result.bind, Process.after]

theorem set_gp_func_ok {pf : Platform} (h : pf.Mappable) {pin : Nat} (hp : pin ≤ 53)
    (function : GP_FUNCTION) (s : Process) :
    set_gp_func pf pin function s =
      .ret () (s.after pf
        [Event.load (GPFSEL.getD (pin / 10) 0) (pf.word s.trace (GPFSEL.getD (pin / 10) 0)),
         Event.store (GPFSEL.getD (pin / 10) 0)
          (gpfselWord (pf.word s.trace (GPFSEL.getD (pin / 10) 0)) (pin % 10) function)]) := by
  unfold set_gp_func
  rw [if_pos hp, reg_get_ok h]
  simp only [Result.bind, FLAGS_PER_REGISTER]
  rw [reg_set_ok h, after_after, Nat.mod_eq_of_lt (gpfselWord_lt _ _ _)]
  rfl

theorem lastStore_append_store (address w : Nat) (t : List Event) :
    lastStore address (t ++ [Event.store address w]) = some w := by
  simp [lastStore, List.foldl_append, lastStoreStep]

theorem lastStore_append_load (address a v : Nat) (t : List Event) :
    lastStore address (t ++ [Event.load a v]) = lastStore address t := by
  simp [lastStore, List.foldl_append, lastStoreStep]

theorem lastStore_append_other {address a : Nat} (w : Nat) (t : List Event) (h : a ≠ address) :
    lastStore address (t ++ [Event.store a w]) = lastStore address t := by
  simp [lastStore, List.foldl_append, lastStoreStep, h]

/-- C2: for every pin 0..53, every function code and every prior register
word, `set_gp_func` loads `GPFSEL[pin / 10]` once and stores back a word whose
three-bit field at bits `3 * (pin mod 10) ..` is the function code, every other
bit being as loaded; where the register is a memory cell it then reads back
with that field; and `set_gp_func(4, GP_AF0)` stores a word with `0b100` in bits
14..12 to address `0x7E200000`. -/
theorem set_gp_func_sets_field (pf : Platform) (hm : pf.Mappable) (pin : Nat) (hp : pin ≤ 53)
    (function : GP_FUNCTION) (s : Process) :
    (∃ w, set_gp_func pf pin function s =
        .ret () (s.after pf
          [Event.load (GPFSEL.getD (pin / 10) 0) (pf.word s.trace (GPFSEL.getD (pin / 10) 0)),
           Event.store (GPFSEL.getD (pin / 10) 0) w])
      ∧ w < 2 ^ 32
      ∧ (w >>> (3 * (pin % 10))) &&& 0b111 = function.val
      ∧ (∀ j, j < 32 → ¬ (3 * (pin % 10) ≤ j ∧ j < 3 * (pin % 10) + 3) →
          w.testBit j = (pf.word s.trace (GPFSEL.getD (pin / 10) 0)).testBit j)
      ∧ (∀ v0, MemoryCell pf.bus (GPFSEL.getD (pin / 10) 0) v0 →
          (pf.word (set_gp_func pf pin function s).state.trace (GPFSEL.getD (pin / 10) 0)
            >>> (3 * (pin % 10))) &&& 0b111 = function.val))
    ∧ (∃ w, set_gp_func pf 4 .GP_AF0 s =
        .ret () (s.after pf
          [Event.load 0x7E200000 (pf.word s.trace 0x7E200000), Event.store 0x7E200000 w])
      ∧ (w >>> 12) &&& 0b111 = 0b100) := by
  have hk : pin % 10 < 10 := Nat.mod_lt _ (by norm_num)
  refine ⟨⟨_, set_gp_func_ok hm hp function s, gpfselWord_lt _ _ _,
    gpfselWord_field _ _ _ hk, ?_, ?_⟩, ⟨_, set_gp_func_ok hm (by norm_num) .GP_AF0 s, ?_⟩⟩
  · intro j hj hout
    rw [testBit_gpfselWord]
    simp [hj, hout]
  · intro v0 hcell
    rw [set_gp_func_ok hm hp function s]
    simp only [Result.state, after_trace, Platform.word]
    rw [hcell]
    have h2 : s.trace ++ [Event.load (GPFSEL.getD (pin / 10) 0)
          (pf.bus s.trace (GPFSEL.getD (pin / 10) 0) % 2 ^ 32),
        Event.store (GPFSEL.getD (pin / 10) 0)
          (gpfselWord (pf.bus s.trace (GPFSEL.getD (pin / 10) 0) % 2 ^ 32) (pin % 10) function)]
        = (s.trace ++ [Event.load (GPFSEL.getD (pin / 10) 0)
          (pf.bus s.trace (GPFSEL.getD (pin / 10) 0) % 2 ^ 32)]) ++
        [Event.store (GPFSEL.getD (pin / 10) 0)
          (gpfselWord (pf.bus s.trace (GPFSEL.getD (pin / 10) 0) % 2 ^ 32) (pin % 10) function)] := by
      simp
    rw [h2, lastStore_append_store, Option.getD_some, Nat.mod_eq_of_lt (gpfselWord_lt _ _ _)]
    exact gpfselWord_field _ _ _ hk
  · have := gpfselWord_field (pf.word s.trace 0x7E200000) 4 .GP_AF0 (by norm_num)
    simpa [GP_FUNCTION.val] using this

/-! ## Register access on any platform -/

theorem stores_append (t u : List Event) : stores (t ++ u) = stores t ++ stores u := by
  induction t with
  | nil => rfl
  | cons e rest ih => cases e <;> simp [stores, ih]

theorem check_peripheral_cases (pf : Platform) (s : Process) :
    (∃ s1, check_peripheral pf s = .ret () s1 ∧ s1.trace = s.trace ∧ s1.stdout = s.stdout) ∨
    (∃ s1, check_peripheral pf s = .exit (-1) s1 ∧ s1.trace = s.trace ∧
      (s1.stdout = s.stdout ++ ["Failed to map memory\n"] ∨
        s1.stdout = s.stdout ++ ["Can't open /dev/mem\nRun as root!\n"])) := by
  unfold check_peripheral map_peripheral map_memory
  by_cases h0 : s.MAP_ADDRESS = 0
  · cases h1 : pf.devmem
    · right
      exact ⟨puts "Can't open /dev/mem\nRun as root!" s, by simp [h0, h1, Result.bind], rfl,
        Or.inr rfl⟩
    · cases h2 : pf.mmap with
      | none =>
        right
        exact ⟨puts "Failed to map memory" s, by simp [h0, h1, h2, Result.bind], rfl, Or.inl rfl⟩
      | some a =>
        left
        exact ⟨{ s with MAP_ADDRESS := a }, by simp [h0, h1, h2, Result.bind], rfl, rfl⟩
  · left
    exact ⟨s, by simp [h0], rfl, rfl⟩

theorem reg_get_cases (pf : Platform) (address : Nat) (s : Process) :
    (∃ s1, reg_get pf address s = .ret (pf.word s.trace address) s1 ∧
      s1.trace = s.trace ++ [Event.load address (pf.word s.trace address)] ∧
      s1.stdout = s.stdout) ∨
    (∃ s1, reg_get pf address s = .exit (-1) s1 ∧ s1.trace = s.trace ∧
      (s1.stdout = s.stdout ++ ["Failed to map memory\n"] ∨
        s1.stdout = s.stdout ++ ["Can't open /dev/mem\nRun as root!\n"])) := by
  unfold reg_get
  rcases check_peripheral_cases pf s with ⟨s1, h, ht, ho⟩ | ⟨s1, h, ht, ho⟩
  · left
    exact ⟨{ s1 with trace := s1.trace ++ [Event.load address (pf.word s1.trace address)] },
      by rw [h]; simp only [Result.bind, ht], by simp [ht], ho⟩
  · right
    exact ⟨s1, by rw [h]; rfl, ht, ho⟩

theorem reg_set_cases (pf : Platform) (address value : Nat) (s : Process) :
    (∃ s1, reg_set pf address value s = .ret () s1 ∧
      s1.trace = s.trace ++ [Event.store address (value % 2 ^ 32)] ∧ s1.stdout = s.stdout) ∨
    (∃ s1, reg_set pf address value s = .exit (-1) s1 ∧ s1.trace = s.trace ∧
      (s1.stdout = s.stdout ++ ["Failed to map memory\n"] ∨
        s1.stdout = s.stdout ++ ["Can't open /dev/mem\nRun as root!\n"])) := by
  unfold reg_set
  rcases check_peripheral_cases pf s with ⟨s1, h, ht, ho⟩ | ⟨s1, h, ht, ho⟩
  · left
    exact ⟨{ s1 with trace := s1.trace ++ [Event.store address (value % 2 ^ 32)] },
      by rw [h]; simp only [Result.bind], by simp [ht], ho⟩
  · right
    exact ⟨s1, by rw [h]; rfl, ht, ho⟩

/-! ## The disabling loop -/

theorem disable_word (clk_source : CM_SRC) :
    (CM_PASSWD ||| clk_source.val) % 2 ^ 32 = 0x5A000000 ||| clk_source.val
    ∧ (0x5A000000 ||| clk_source.val) &&& CM_ENAB = 0
    ∧ (0x5A000000 ||| clk_source.val) &&& (3 <<< 9) = 0
    ∧ (0x5A000000 ||| clk_source.val) >>> 24 = 0x5A := by
  cases clk_source <;> decide

/-- What the disabling loop does on any platform, for any fuel. -/
theorem stop_clk_generator_inv (pf : Platform) (gpclk_number : CM_GPCLK) (clk_source : CM_SRC)
    (fuel : Nat) (s : Process) :
    ∃ k, stores (stop_clk_generator pf gpclk_number clk_source fuel s).state.trace
        = stores s.trace
          ++ List.replicate k (ctlReg gpclk_number, 0x5A000000 ||| clk_source.val)
      ∧ k ≤ fuel
      ∧ (pf.word s.trace (ctlReg gpclk_number) &&& CM_BUSY = 0 → k = 0)
      ∧ (∀ s1, stop_clk_generator pf gpclk_number clk_source fuel s = .ret () s1 →
          ∃ pre v, s1.trace = pre ++ [Event.load (ctlReg gpclk_number) v] ∧ v &&& CM_BUSY = 0) := by
  induction fuel generalizing s with
  | zero =>
    refine ⟨0, by simp [stop_clk_generator, Result.state], le_refl _, fun _ => rfl, ?_⟩
    intro s1 h
    simp [stop_clk_generator] at h
  | succ fuel ih =>
    unfold stop_clk_generator
    rcases reg_get_cases pf (ctlReg gpclk_number) s with ⟨s1, h1, ht1, -⟩ | ⟨s1, h1, ht1, -⟩
    · rw [h1]
      simp only [Result.bind]
      by_cases hb : pf.word s.trace (ctlReg gpclk_number) &&& CM_BUSY = 0
      · refine ⟨0, ?_, Nat.zero_le _, fun _ => rfl, ?_⟩
        · simp [hb, Result.state, ht1, stores_append, stores]
        · intro s2 h2
          simp only [hb, ne_eq, not_true_eq_false, if_false, Result.ret.injEq, true_and] at h2
          subst h2
          exact ⟨_, _, ht1, hb⟩
      · rw [if_pos hb]
        rcases reg_set_cases pf (ctlReg gpclk_number) (CM_PASSWD ||| clk_source.val) s1 with
          ⟨s2, h2, ht2, -⟩ | ⟨s2, h2, ht2, -⟩
        · rw [h2]
          simp only [Result.bind]
          obtain ⟨k, hk, hle, -, hret⟩ := ih s2
          refine ⟨k + 1, ?_, by omega, fun h => absurd h hb, hret⟩
          rw [hk, ht2, ht1, (disable_word clk_source).1]
          simp [stores_append, stores, List.replicate_succ]
        · rw [h2]
          refine ⟨0, ?_, Nat.zero_le _, fun _ => rfl, ?_⟩
          · simp [Result.bind, Result.state, ht2, ht1, stores_append, stores]
          · intro s3 h3
            simp [Result.bind] at h3
    · rw [h1]
      refine ⟨0, ?_, Nat.zero_le _, fun _ => rfl, ?_⟩
      · simp [Result.bind, Result.state, ht1]
      · intro s3 h3
        simp [Result.bind] at h3

/-! ## The register-file model -/

theorem and_two_pow_ne_zero (y i : Nat) : y &&& 2 ^ i ≠ 0 ↔ y.testBit i = true := by
  rw [Nat.and_two_pow]
  cases y.testBit i <;> simp

theorem busy_iff_testBit (y : Nat) : y &&& CM_BUSY ≠ 0 ↔ y.testBit 7 = true :=
  and_two_pow_ne_zero y 7

theorem busy_clear_iff_testBit (y : Nat) : y &&& CM_BUSY = 0 ↔ y.testBit 7 = false := by
  rw [← Bool.not_eq_true, ← busy_iff_testBit]
  exact not_not.symm

theorem enab_iff_testBit (y : Nat) : y &&& CM_ENAB ≠ 0 ↔ y.testBit 4 = true :=
  and_two_pow_ne_zero y 4

theorem board_mappable : board.Mappable := ⟨rfl, rfl⟩

theorem registerFile_append (regs : Nat → Nat) (t : List Event) (e : Event) (a : Nat) :
    registerFile regs (t ++ [e]) a = regStep (registerFile regs t) e a := by
  unfold registerFile
  rw [List.foldl_append]
  rfl

theorem lastStore_append (address : Nat) (t : List Event) (e : Event) :
    lastStore address (t ++ [e]) = lastStoreStep address (lastStore address t) e := by
  simp [lastStore, List.foldl_append]

theorem registerFile_memoryCell (regs : Nat → Nat) (address : Nat) (h : address ∉ CM_GPCTL) :
    MemoryCell (registerFile regs) address (regs address) := by
  intro t
  induction t using List.reverseRecOn with
  | nil => rfl
  | append_singleton t e ih =>
    rw [registerFile_append, lastStore_append]
    cases e with
    | load a v => simpa [regStep, lastStoreStep] using ih
    | store a w =>
      by_cases ha : address = a
      · subst ha
        simp [regStep, lastStoreStep, h]
      · have ha2 : ¬ a = address := fun h2 => ha h2.symm
        simpa [regStep, lastStoreStep, ha, ha2] using ih

theorem registerFile_busyFollowsEnab (regs : Nat → Nat) (ctl : Nat) (h : ctl ∈ CM_GPCTL)
    (busy0 : Bool) (h0 : regs ctl % 2 ^ 32 &&& CM_BUSY ≠ 0 ↔ busy0 = true) :
    BusyFollowsEnab (registerFile regs) ctl busy0 := by
  intro t
  induction t using List.reverseRecOn with
  | nil => simpa [registerFile, lastStore] using h0
  | append_singleton t e ih =>
    rw [registerFile_append, lastStore_append]
    cases e with
    | load a v => simpa [regStep, lastStoreStep] using ih
    | store a w =>
      by_cases ha : ctl = a
      · subst ha
        simp only [regStep, lastStoreStep, if_true, h]
        rw [busy_iff_testBit]
        have h7 : (CM_BUSY).testBit 7 = true := by decide
        by_cases he : w &&& CM_ENAB ≠ 0
        · rw [if_pos he, Nat.testBit_mod_two_pow, Nat.testBit_or, h7]
          simp [he]
        · rw [if_neg he, Nat.testBit_mod_two_pow, Nat.testBit_and, testBit_not32, h7]
          simp [he]
      · have ha2 : ¬ a = ctl := fun h2 => ha h2.symm
        simpa [regStep, lastStoreStep, ha, ha2] using ih

theorem ctlReg_mem (gpclk_number : CM_GPCLK) : ctlReg gpclk_number ∈ CM_GPCTL := by
  cases gpclk_number <;> decide

theorem divReg_ne_ctlReg (m n : CM_GPCLK) : divReg m ≠ ctlReg n := by
  cases m <;> cases n <;> decide

/-! ## The disabling loop where the generator answers at once -/

theorem stop_clk_generator_idle {pf : Platform} (hm : pf.Mappable) (gpclk_number : CM_GPCLK)
    (clk_source : CM_SRC) (fuel : Nat) (s : Process)
    (hclear : pf.word s.trace (ctlReg gpclk_number) &&& CM_BUSY = 0) :
    stop_clk_generator pf gpclk_number clk_source (fuel + 1) s =
      .ret () (s.after pf
        [Event.load (ctlReg gpclk_number) (pf.word s.trace (ctlReg gpclk_number))]) := by
  unfold stop_clk_generator
  rw [reg_get_ok hm]
  simp [Result.bind, hclear]

theorem word_after_store {pf : Platform} {ctl : Nat} {busy0 : Bool}
    (hf : BusyFollowsEnab pf.bus ctl busy0) (t : List Event) (w : Nat) :
    pf.word (t ++ [Event.store ctl w]) ctl &&& CM_BUSY ≠ 0 ↔ w &&& CM_ENAB ≠ 0 := by
  have h := hf (t ++ [Event.store ctl w])
  rw [lastStore_append_store] at h
  exact h

theorem word_after_load {pf : Platform} {ctl : Nat} {busy0 : Bool}
    (hf : BusyFollowsEnab pf.bus ctl busy0) (t : List Event) (a v : Nat) :
    pf.word (t ++ [Event.load a v]) ctl &&& CM_BUSY ≠ 0 ↔ pf.word t ctl &&& CM_BUSY ≠ 0 := by
  have h := hf (t ++ [Event.load a v])
  rw [lastStore_append_load] at h
  exact h.trans (hf t).symm

theorem word_after_other {pf : Platform} {ctl : Nat} {busy0 : Bool}
    (hf : BusyFollowsEnab pf.bus ctl busy0) (t : List Event) {a : Nat} (w : Nat) (ha : a ≠ ctl) :
    pf.word (t ++ [Event.store a w]) ctl &&& CM_BUSY ≠ 0 ↔ pf.word t ctl &&& CM_BUSY ≠ 0 := by
  have h := hf (t ++ [Event.store a w])
  rw [lastStore_append_other w t ha] at h
  exact h.trans (hf t).symm

theorem stop_clk_generator_busy {pf : Platform} (hm : pf.Mappable) (gpclk_number : CM_GPCLK)
    (clk_source : CM_SRC) {busy0 : Bool}
    (hf : BusyFollowsEnab pf.bus (ctlReg gpclk_number) busy0) (fuel : Nat) (s : Process)
    (hbusy : pf.word s.trace (ctlReg gpclk_number) &&& CM_BUSY ≠ 0) :
    stop_clk_generator pf gpclk_number clk_source (fuel + 2) s =
      .ret () (s.after pf
        [Event.load (ctlReg gpclk_number) (pf.word s.trace (ctlReg gpclk_number)),
         Event.store (ctlReg gpclk_number) (0x5A000000 ||| clk_source.val),
         Event.load (ctlReg gpclk_number)
          (pf.word (s.trace ++
            [Event.load (ctlReg gpclk_number) (pf.word s.trace (ctlReg gpclk_number)),
             Event.store (ctlReg gpclk_number) (0x5A000000 ||| clk_source.val)])
            (ctlReg gpclk_number))]) := by
  rw [stop_clk_generator, reg_get_ok hm]
  simp only [Result.bind]
  rw [if_pos hbusy, reg_set_ok hm, (disable_word clk_source).1]
  simp only [Result.bind]
  rw [after_after, stop_clk_generator_idle hm, after_after]
  · simp [after_trace]
  · rw [after_trace]
    have h := word_after_store hf
      (s.trace ++ [Event.load (ctlReg gpclk_number) (pf.word s.trace (ctlReg gpclk_number))])
      (0x5A000000 ||| clk_source.val)
    rw [(disable_word clk_source).2.1] at h
    simpa using h

theorem stop_clk_generator_returns {pf : Platform} (hm : pf.Mappable) (gpclk_number : CM_GPCLK)
    (clk_source : CM_SRC) {busy0 : Bool}
    (hf : BusyFollowsEnab pf.bus (ctlReg gpclk_number) busy0) (fuel : Nat) (s : Process) :
    ∃ s1, stop_clk_generator pf gpclk_number clk_source (fuel + 2) s = .ret () s1 := by
  by_cases hb : pf.word s.trace (ctlReg gpclk_number) &&& CM_BUSY = 0
  · exact ⟨_, stop_clk_generator_idle hm gpclk_number clk_source (fuel + 1) s hb⟩
  · exact ⟨_, stop_clk_generator_busy hm gpclk_number clk_source hf fuel s hb⟩

/-! ## Claims about `set_gp_func` failing and about the disabling loop -/

/-- C6: `set_gp_func` ends in its error branch, printing "Invalid pin number!"
and calling `exit(-1)` with the bus trace and the mapping untouched, exactly
when the pin number is above 53; for a pin in 0..53 the message is never
printed, and where mapping succeeds the call returns. -/
theorem set_gp_func_invalid_pin (pf : Platform) (pin : Nat) (function : GP_FUNCTION)
    (s : Process) :
    (set_gp_func pf pin function s = .exit (-1) (puts "Invalid pin number!" s) ↔ 53 < pin)
    ∧ (puts "Invalid pin number!" s).trace = s.trace
    ∧ (puts "Invalid pin number!" s).MAP_ADDRESS = s.MAP_ADDRESS
    ∧ (puts "Invalid pin number!" s).stdout = s.stdout ++ ["Invalid pin number!\n"]
    ∧ (pin ≤ 53 →
        (set_gp_func pf pin function s).state.stdout = s.stdout
        ∨ (set_gp_func pf pin function s).state.stdout = s.stdout ++ ["Failed to map memory\n"]
        ∨ (set_gp_func pf pin function s).state.stdout
            = s.stdout ++ ["Can't open /dev/mem\nRun as root!\n"])
    ∧ (pin ≤ 53 → pf.Mappable → ∃ s1, set_gp_func pf pin function s = .ret () s1) := by
  have key : pin ≤ 53 →
      (set_gp_func pf pin function s).state.stdout = s.stdout
      ∨ (set_gp_func pf pin function s).state.stdout = s.stdout ++ ["Failed to map memory\n"]
      ∨ (set_gp_func pf pin function s).state.stdout
          = s.stdout ++ ["Can't open /dev/mem\nRun as root!\n"] := by
    intro hp
    unfold set_gp_func
    rw [if_pos hp]
    rcases reg_get_cases pf (GPFSEL.getD (pin / FLAGS_PER_REGISTER) 0) s with
      ⟨s1, h1, -, ho1⟩ | ⟨s1, h1, -, ho1⟩
    · rw [h1]
      simp only [Result.bind]
      rcases reg_set_cases pf (GPFSEL.getD (pin / FLAGS_PER_REGISTER) 0)
          (gpfselWord (pf.word s.trace (GPFSEL.getD (pin / FLAGS_PER_REGISTER) 0))
            (pin % FLAGS_PER_REGISTER) function) s1 with ⟨s2, h2, -, ho2⟩ | ⟨s2, h2, -, ho2⟩
      · rw [h2]
        exact Or.inl (by simp [Result.state, ho2, ho1])
      · rw [h2]
        exact Or.inr (by simpa [Result.state, ho1] using ho2)
    · rw [h1]
      exact Or.inr (by simpa [Result.bind, Result.state] using ho1)
  refine ⟨⟨?_, ?_⟩, rfl, rfl, rfl, key, ?_⟩
  · intro h
    by_contra hp
    have hp2 : pin ≤ 53 := Nat.le_of_not_lt hp
    have hk := key hp2
    rw [h] at hk
    simp [Result.state, puts] at hk
  · intro hp
    unfold set_gp_func
    rw [if_neg (Nat.not_le_of_lt hp)]
  · intro hp hm
    exact ⟨_, set_gp_func_ok hm hp function s⟩

/-- C9: on any platform and for any fuel, `stop_clk_generator(n, src)` stores
nothing when the control register reads with BUSY clear; otherwise everything
it stores is the word `0x5A000000 | src` to `CM_GPCTL[n]`; that word has ENAB
and the MASH bits clear; and when the call returns, its last bus event is a
load of `CM_GPCTL[n]` that showed BUSY clear.  Where mapping succeeds and the
generator answers at once, two loop tests are enough for the call to return. -/
theorem stop_clk_generator_disables (pf : Platform) (gpclk_number : CM_GPCLK)
    (clk_source : CM_SRC) (fuel : Nat) (s : Process) :
    (∃ k, stores (stop_clk_generator pf gpclk_number clk_source fuel s).state.trace
        = stores s.trace
          ++ List.replicate k (CM_GPCTL.getD gpclk_number.val 0, 0x5A000000 ||| clk_source.val)
      ∧ (pf.word s.trace (CM_GPCTL.getD gpclk_number.val 0) &&& CM_BUSY = 0 → k = 0))
    ∧ (0x5A000000 ||| clk_source.val) &&& CM_ENAB = 0
    ∧ (0x5A000000 ||| clk_source.val) &&& (3 <<< 9) = 0
    ∧ (∀ s1, stop_clk_generator pf gpclk_number clk_source fuel s = .ret () s1 →
        ∃ pre v, s1.trace = pre ++ [Event.load (CM_GPCTL.getD gpclk_number.val 0) v]
          ∧ v &&& CM_BUSY = 0)
    ∧ (∀ busy0, pf.Mappable → BusyFollowsEnab pf.bus (CM_GPCTL.getD gpclk_number.val 0) busy0 →
        ∃ s1, stop_clk_generator pf gpclk_number clk_source (fuel + 2) s = .ret () s1) := by
  obtain ⟨k, hk, -, h0, hret⟩ := stop_clk_generator_inv pf gpclk_number clk_source fuel s
  exact ⟨⟨k, hk, h0⟩, (disable_word clk_source).2.1, (disable_word clk_source).2.2.1, hret,
    fun _ hm hf => stop_clk_generator_returns hm gpclk_number clk_source hf fuel s⟩

/-! ## Continuations of the trace -/

theorem Emits.refl (P : Event → Prop) (s : Process) : Emits P s s :=
  ⟨[], by simp, by simp⟩

theorem Emits.of_trace_eq {P : Event → Prop} {s t : Process} (h : t.trace = s.trace) :
    Emits P s t :=
  ⟨[], by simp [h], by simp⟩

theorem Emits.trans {P : Event → Prop} {s t u : Process} (h1 : Emits P s t) (h2 : Emits P t u) :
    Emits P s u := by
  obtain ⟨e1, ht, hp1⟩ := h1
  obtain ⟨e2, hu, hp2⟩ := h2
  refine ⟨e1 ++ e2, by rw [hu, ht, List.append_assoc], ?_⟩
  intro e he
  rcases List.mem_append.mp he with h | h
  · exact hp1 e h
  · exact hp2 e h

theorem Emits.single {P : Event → Prop} {s t : Process} (e : Event) (h : t.trace = s.trace ++ [e])
    (hp : P e) : Emits P s t :=
  ⟨[e], h, by simpa using hp⟩

theorem emits_reg_get (P : Event → Prop) (pf : Platform) (address : Nat) (s : Process)
    (hp : P (Event.load address (pf.word s.trace address))) :
    Emits P s (reg_get pf address s).state := by
  rcases reg_get_cases pf address s with ⟨s1, h, ht, -⟩ | ⟨s1, h, ht, -⟩
  · rw [h]
    exact Emits.single _ ht hp
  · rw [h]
    exact Emits.of_trace_eq ht

theorem emits_reg_set (P : Event → Prop) (pf : Platform) (address value : Nat) (s : Process)
    (hp : P (Event.store address (value % 2 ^ 32))) :
    Emits P s (reg_set pf address value s).state := by
  rcases reg_set_cases pf address value s with ⟨s1, h, ht, -⟩ | ⟨s1, h, ht, -⟩
  · rw [h]
    exact Emits.single _ ht hp
  · rw [h]
    exact Emits.of_trace_eq ht

theorem emits_bind {α β : Type} (P : Event → Prop) (s : Process) (r : Result α)
    (k : α → Process → Result β) (h1 : Emits P s r.state)
    (h2 : ∀ a s1, r = .ret a s1 → Emits P s1 (k a s1).state) :
    Emits P s (r.bind k).state := by
  cases r with
  | ret a s1 => exact Emits.trans h1 (h2 a s1 rfl)
  | exit c s1 => exact h1
  | undefined s1 => exact h1
  | spinning s1 => exact h1
  | killed c s1 => exact h1

/-- Every bus event of the disabling loop is a load of the control register or
a store of the disable word to it. -/
theorem emits_stop_clk_generator (P : Event → Prop) (pf : Platform) (gpclk_number : CM_GPCLK)
    (clk_source : CM_SRC) (hl : ∀ v, P (Event.load (ctlReg gpclk_number) v))
    (hs : P (Event.store (ctlReg gpclk_number) (0x5A000000 ||| clk_source.val)))
    (fuel : Nat) (s : Process) :
    Emits P s (stop_clk_generator pf gpclk_number clk_source fuel s).state := by
  induction fuel generalizing s with
  | zero => exact Emits.refl P s
  | succ fuel ih =>
    unfold stop_clk_generator
    apply emits_bind P s _ _ (emits_reg_get P pf _ s (hl _))
    intro v s1 _
    by_cases hb : v &&& CM_BUSY ≠ 0
    · rw [if_pos hb]
      apply emits_bind P s1 _ _ (emits_reg_set P pf _ _ s1 ?_)
      · intro _ s2 _
        exact ih s2
      · rw [(disable_word clk_source).1]
        exact hs
    · rw [if_neg hb]
      exact Emits.refl P s1

/-- Every bus event of the enabling loop is a load of the control register or a
store to it of the password, a word read from it, and ENAB. -/
theorem emits_enable_loop (P : Event → Prop) (pf : Platform) (gpclk_number : CM_GPCLK)
    (hl : ∀ v, P (Event.load (ctlReg gpclk_number) v))
    (hs : ∀ t, P (Event.store (ctlReg gpclk_number)
      ((CM_PASSWD ||| pf.word t (ctlReg gpclk_number) ||| CM_ENAB) % 2 ^ 32)))
    (fuel : Nat) (s : Process) :
    Emits P s (enable_loop pf gpclk_number fuel s).state := by
  induction fuel generalizing s with
  | zero => exact Emits.refl P s
  | succ fuel ih =>
    unfold enable_loop
    apply emits_bind P s _ _ (emits_reg_get P pf _ s (hl _))
    intro v s1 _
    by_cases hb : v &&& CM_BUSY = 0
    · rw [if_pos hb]
      apply emits_bind P s1 _ _ (emits_reg_get P pf _ s1 (hl _))
      intro r s2 hr
      have hrv : r = pf.word s1.trace (ctlReg gpclk_number) := by
        rcases reg_get_cases pf (ctlReg gpclk_number) s1 with ⟨s3, h, -, -⟩ | ⟨s3, h, -, -⟩
        · rw [h] at hr
          injection hr with h1 h2
          exact h1.symm
        · rw [h] at hr
          cases hr
      apply emits_bind P s2 _ _ (emits_reg_set P pf _ _ s2 ?_)
      · intro _ s3 _
        exact ih s3
      · rw [hrv]
        exact hs _
    · rw [if_neg hb]
      exact Emits.refl P s1

/-! ## Starting the generator -/

theorem word_lt (pf : Platform) (t : List Event) (address : Nat) : pf.word t address < 2 ^ 32 :=
  Nat.mod_lt _ (by positivity)

theorem enable_word {r : Nat} (hr : r < 2 ^ 32) :
    (CM_PASSWD ||| r ||| CM_ENAB) % 2 ^ 32 = 0x5A000000 ||| r ||| 0x10
    ∧ (0x5A000000 ||| r ||| 0x10) &&& CM_ENAB ≠ 0 := by
  constructor
  · exact Nat.mod_eq_of_lt (Nat.or_lt_two_pow (Nat.or_lt_two_pow (by decide) hr) (by decide))
  · rw [enab_iff_testBit, Nat.testBit_or]
    have h : (0x10 : Nat).testBit 4 = true := by decide
    rw [h, Bool.or_true]

theorem setup_word (mash_stage : CM_MASH) (clk_source : CM_SRC) :
    (CM_PASSWD ||| mash_stage.val ||| clk_source.val) % 2 ^ 32
      = 0x5A000000 ||| mash_stage.val ||| clk_source.val
    ∧ (0x5A000000 ||| mash_stage.val ||| clk_source.val) &&& CM_ENAB = 0
    ∧ (0x5A000000 ||| mash_stage.val ||| clk_source.val) >>> 24 = 0x5A := by
  cases mash_stage <;> cases clk_source <;> decide

theorem divisor_word {d : Nat} (hd : d < 2 ^ 32) :
    (CM_PASSWD ||| d) % 2 ^ 32 = 0x5A000000 ||| d :=
  Nat.mod_eq_of_lt (Nat.or_lt_two_pow (by decide) hd)

theorem enable_loop_ok {pf : Platform} (hm : pf.Mappable) (gpclk_number : CM_GPCLK)
    {busy0 : Bool} (hf : BusyFollowsEnab pf.bus (ctlReg gpclk_number) busy0) (fuel : Nat)
    (s : Process) (hclear : pf.word s.trace (ctlReg gpclk_number) &&& CM_BUSY = 0) :
    ∃ v1 r v2, enable_loop pf gpclk_number (fuel + 2) s =
        .ret () (s.after pf
          [Event.load (ctlReg gpclk_number) v1, Event.load (ctlReg gpclk_number) r,
           Event.store (ctlReg gpclk_number) (0x5A000000 ||| r ||| 0x10),
           Event.load (ctlReg gpclk_number) v2])
      ∧ v1 &&& CM_BUSY = 0 ∧ r &&& CM_BUSY = 0 ∧ r < 2 ^ 32 ∧ v2 &&& CM_BUSY ≠ 0 := by
  have hr := word_lt pf (s.trace ++
    [Event.load (ctlReg gpclk_number) (pf.word s.trace (ctlReg gpclk_number))])
    (ctlReg gpclk_number)
  have hrb : ¬ pf.word (s.trace ++
      [Event.load (ctlReg gpclk_number) (pf.word s.trace (ctlReg gpclk_number))])
      (ctlReg gpclk_number) &&& CM_BUSY ≠ 0 := by
    rw [word_after_load hf]
    simpa using hclear
  have hv2 := (word_after_store hf (s.trace ++
    [Event.load (ctlReg gpclk_number) (pf.word s.trace (ctlReg gpclk_number)),
     Event.load (ctlReg gpclk_number) (pf.word (s.trace ++
      [Event.load (ctlReg gpclk_number) (pf.word s.trace (ctlReg gpclk_number))])
      (ctlReg gpclk_number))])
    (0x5A000000 ||| pf.word (s.trace ++
      [Event.load (ctlReg gpclk_number) (pf.word s.trace (ctlReg gpclk_number))])
      (ctlReg gpclk_number) ||| 0x10)).mpr (enable_word hr).2
  refine ⟨_, _, _, ?_, hclear, by simpa using hrb, hr, hv2⟩
  rw [enable_loop, reg_get_ok hm]
  simp only [Result.bind]
  rw [if_pos hclear, reg_get_ok hm]
  simp only [Result.bind]
  rw [reg_set_ok hm, after_trace, (enable_word hr).1]
  simp only [Result.bind]
  rw [after_after, after_after, enable_loop, reg_get_ok hm]
  simp only [Result.bind, after_trace, List.append_assoc, List.singleton_append,
    List.cons_append, List.nil_append] at hv2 ⊢
  rw [if_neg hv2, after_after]
  rfl

theorem start_clk_generator_ok {pf : Platform} (hm : pf.Mappable) (gpclk_number : CM_GPCLK)
    {clock_divisor : Nat} (hd : clock_divisor < 2 ^ 32) (clk_source : CM_SRC)
    (mash_stage : CM_MASH) {busy0 : Bool}
    (hf : BusyFollowsEnab pf.bus (ctlReg gpclk_number) busy0) (fuel : Nat)
    (s : Process) (hclear : pf.word s.trace (ctlReg gpclk_number) &&& CM_BUSY = 0) :
    ∃ v0 v1 r v2,
      start_clk_generator pf gpclk_number clock_divisor clk_source mash_stage (fuel + 2) s =
        .ret () (s.after pf
          [Event.load (ctlReg gpclk_number) v0,
           Event.store (divReg gpclk_number) (0x5A000000 ||| clock_divisor),
           Event.store (ctlReg gpclk_number) (0x5A000000 ||| mash_stage.val ||| clk_source.val),
           Event.load (ctlReg gpclk_number) v1, Event.load (ctlReg gpclk_number) r,
           Event.store (ctlReg gpclk_number) (0x5A000000 ||| r ||| 0x10),
           Event.load (ctlReg gpclk_number) v2])
      ∧ v0 &&& CM_BUSY = 0 ∧ v1 &&& CM_BUSY = 0 ∧ r < 2 ^ 32 ∧ v2 &&& CM_BUSY ≠ 0 := by
  have hc : pf.word ((((s.after pf
      [Event.load (ctlReg gpclk_number) (pf.word s.trace (ctlReg gpclk_number))]).after pf
      [Event.store (divReg gpclk_number) (0x5A000000 ||| clock_divisor)]).after pf
      [Event.store (ctlReg gpclk_number)
        (0x5A000000 ||| mash_stage.val ||| clk_source.val)]).trace)
      (ctlReg gpclk_number) &&& CM_BUSY = 0 := by
    have h := word_after_store hf (s.trace ++
      [Event.load (ctlReg gpclk_number) (pf.word s.trace (ctlReg gpclk_number))] ++
      [Event.store (divReg gpclk_number) (0x5A000000 ||| clock_divisor)])
      (0x5A000000 ||| mash_stage.val ||| clk_source.val)
    rw [(setup_word mash_stage clk_source).2.1] at h
    simpa [after_trace] using h
  obtain ⟨v1, r, v2, he, h1, -, hr, h2⟩ := enable_loop_ok hm gpclk_number hf fuel _ hc
  refine ⟨_, v1, r, v2, ?_, hclear, h1, hr, h2⟩
  unfold start_clk_generator
  rw [stop_clk_generator_idle hm gpclk_number clk_source (fuel + 1) s hclear]
  simp only [Result.bind]
  rw [reg_set_ok hm, divisor_word hd]
  simp only [Result.bind]
  rw [reg_set_ok hm, (setup_word mash_stage clk_source).1]
  simp only [Result.bind]
  rw [he, after_after, after_after, after_after]
  rfl

theorem bind_ret {α β : Type} (a : α) (s : Process) (k : α → Process → Result β) :
    (Result.ret a s).bind k = k a s := rfl

theorem bind_exit {α β : Type} (c : Int) (s : Process) (k : α → Process → Result β) :
    (Result.exit c s : Result α).bind k = .exit c s := rfl

theorem stop_clk_generator_ret_trace (pf : Platform) (gpclk_number : CM_GPCLK)
    (clk_source : CM_SRC) (fuel : Nat) (s s1 : Process)
    (h : stop_clk_generator pf gpclk_number clk_source fuel s = .ret () s1) :
    ∃ evs v, s1.trace = s.trace ++ evs ++ [Event.load (ctlReg gpclk_number) v]
      ∧ v &&& CM_BUSY = 0 ∧ ∀ e ∈ evs, e.isOn (ctlReg gpclk_number) := by
  induction fuel generalizing s with
  | zero => simp [stop_clk_generator] at h
  | succ fuel ih =>
    unfold stop_clk_generator at h
    rcases reg_get_cases pf (ctlReg gpclk_number) s with ⟨s2, h2, ht2, -⟩ | ⟨s2, h2, ht2, -⟩
    · rw [h2] at h
      simp only [Result.bind] at h
      by_cases hb : pf.word s.trace (ctlReg gpclk_number) &&& CM_BUSY ≠ 0
      · rw [if_pos hb] at h
        rcases reg_set_cases pf (ctlReg gpclk_number) (CM_PASSWD ||| clk_source.val) s2 with
          ⟨s3, h3, ht3, -⟩ | ⟨s3, h3, ht3, -⟩
        · rw [h3] at h
          simp only [Result.bind] at h
          obtain ⟨evs, v, ht, hv, hon⟩ := ih s3 h
          refine ⟨[Event.load (ctlReg gpclk_number) (pf.word s.trace (ctlReg gpclk_number)),
            Event.store (ctlReg gpclk_number) ((CM_PASSWD ||| clk_source.val) % 2 ^ 32)] ++ evs,
            v, ?_, hv, ?_⟩
          · rw [ht, ht3, ht2]
            simp
          · intro e he
            simp only [List.cons_append, List.nil_append, List.mem_cons] at he
            rcases he with he | he | he
            · rw [he]
              rfl
            · rw [he]
              rfl
            · exact hon e he
        · rw [h3] at h
          simp [Result.bind] at h
      · rw [if_neg hb] at h
        injection h with _ h
        subst h
        exact ⟨[], _, by simpa using ht2, by simpa using hb, by simp⟩
    · rw [h2] at h
      simp [Result.bind] at h

theorem not_isStoreTo_of_isOn {ctl address : Nat} (h : address ≠ ctl) {e : Event}
    (he : e.isOn ctl) : ¬ e.isStoreTo address := by
  cases e with
  | load a v => exact fun h2 => h2
  | store a w =>
    intro h2
    exact h (h2.symm.trans he)

/-- On any platform: the new bus events of `start_clk_generator` either contain
no store to the divisor register, or exactly one, and the event just before
it is a load of the control register that showed BUSY clear. -/
theorem start_clk_generator_guard (pf : Platform) (gpclk_number : CM_GPCLK) (div : Nat)
    (clk_source : CM_SRC) (mash_stage : CM_MASH) (fuel : Nat) (s : Process) :
    ∃ evs, (start_clk_generator pf gpclk_number div clk_source mash_stage fuel s).state.trace
        = s.trace ++ evs
      ∧ ((∀ e ∈ evs, ¬ e.isStoreTo (divReg gpclk_number))
        ∨ ∃ pre v w post,
            evs = pre ++ [Event.load (ctlReg gpclk_number) v,
              Event.store (divReg gpclk_number) w] ++ post
            ∧ v &&& CM_BUSY = 0
            ∧ (∀ e ∈ pre, ¬ e.isStoreTo (divReg gpclk_number))
            ∧ (∀ e ∈ post, ¬ e.isStoreTo (divReg gpclk_number))) := by
  have hne := divReg_ne_ctlReg gpclk_number gpclk_number
  have hstop := emits_stop_clk_generator (fun e => e.isOn (ctlReg gpclk_number)) pf gpclk_number
    clk_source (fun _ => rfl) rfl fuel s
  unfold start_clk_generator
  cases h : stop_clk_generator pf gpclk_number clk_source fuel s with
  | ret u s1 =>
    obtain ⟨pre, v, ht1, hv, hpre⟩ := stop_clk_generator_ret_trace pf gpclk_number clk_source
      fuel s s1 h
    rw [bind_ret]
    rcases reg_set_cases pf (divReg gpclk_number) (CM_PASSWD ||| div) s1 with
      ⟨s2, h2, ht2, -⟩ | ⟨s2, h2, ht2, -⟩
    · rw [h2, bind_ret]
      have hrest : Emits (fun e => e.isOn (ctlReg gpclk_number)) s2
          ((reg_set pf (ctlReg gpclk_number)
            (CM_PASSWD ||| mash_stage.val ||| clk_source.val) s2).bind
              fun _ s3 => enable_loop pf gpclk_number fuel s3).state := by
        apply emits_bind (fun e => e.isOn (ctlReg gpclk_number)) s2 _ _
          (emits_reg_set (fun e => e.isOn (ctlReg gpclk_number)) pf _ _ s2 rfl)
        intro _ s3 _
        exact emits_enable_loop (fun e => e.isOn (ctlReg gpclk_number)) pf gpclk_number
          (fun _ => rfl) (fun _ => rfl) fuel s3
      obtain ⟨post, htp, hpost⟩ := hrest
      refine ⟨pre ++ [Event.load (ctlReg gpclk_number) v,
        Event.store (divReg gpclk_number) ((CM_PASSWD ||| div) % 2 ^ 32)] ++ post, ?_,
        Or.inr ⟨pre, v, _, post, rfl, hv, ?_, ?_⟩⟩
      · rw [htp, ht2, ht1]
        simp
      · exact fun e he => not_isStoreTo_of_isOn hne (hpre e he)
      · exact fun e he => not_isStoreTo_of_isOn hne (hpost e he)
    · rw [h2, bind_exit]
      simp only [Result.state]
      refine ⟨pre ++ [Event.load (ctlReg gpclk_number) v],
        by rw [ht2, ht1, List.append_assoc], Or.inl ?_⟩
      intro e he
      rcases List.mem_append.mp he with h3 | h3
      · exact not_isStoreTo_of_isOn hne (hpre e h3)
      · rw [List.mem_singleton.mp h3]
        exact fun h4 => h4
  | exit c s1 =>
    rw [h] at hstop
    obtain ⟨evs, ht, hon⟩ := hstop
    exact ⟨evs, ht, Or.inl fun e he => not_isStoreTo_of_isOn hne (hon e he)⟩
  | undefined s1 =>
    rw [h] at hstop
    obtain ⟨evs, ht, hon⟩ := hstop
    exact ⟨evs, ht, Or.inl fun e he => not_isStoreTo_of_isOn hne (hon e he)⟩
  | spinning s1 =>
    rw [h] at hstop
    obtain ⟨evs, ht, hon⟩ := hstop
    exact ⟨evs, ht, Or.inl fun e he => not_isStoreTo_of_isOn hne (hon e he)⟩
  | killed c s1 =>
    rw [h] at hstop
    obtain ⟨evs, ht, hon⟩ := hstop
    exact ⟨evs, ht, Or.inl fun e he => not_isStoreTo_of_isOn hne (hon e he)⟩

/-- C8: where mapping succeeds and BUSY of `CM_GPCTL[n]` reads clear at first
and afterwards follows the ENAB bit of the last word stored there,
`start_clk_generator(n, div, src, mash)` with a 32-bit `div` (so in particular
`div < 2 ^ 24`) returns after exactly three stores, in this order:
`CM_GPDIV[n] := 0x5A000000 | div`, `CM_GPCTL[n] := 0x5A000000 | mash | src` (ENAB
clear), `CM_GPCTL[n] := 0x5A000000 | r | 0x10` with `r` the word loaded just
before.  `set_clk_frequency` calls it with source PLLD and one-stage MASH, which
makes the second word `0x5A000206`.  On every platform the store to the
divisor register comes right after a load of `CM_GPCTL[n]` with BUSY clear. -/
theorem start_clk_generator_order (pf : Platform) (hm : pf.Mappable) (gpclk_number : CM_GPCLK)
    (div : Nat) (hd : div < 2 ^ 32) (clk_source : CM_SRC) (mash_stage : CM_MASH) (busy0 : Bool)
    (hf : BusyFollowsEnab pf.bus (CM_GPCTL.getD gpclk_number.val 0) busy0) (fuel : Nat)
    (s : Process)
    (hclear : pf.word s.trace (CM_GPCTL.getD gpclk_number.val 0) &&& CM_BUSY = 0) :
    (∃ v0 v1 r v2,
      start_clk_generator pf gpclk_number div clk_source mash_stage (fuel + 2) s =
        .ret () (s.after pf
          [Event.load (CM_GPCTL.getD gpclk_number.val 0) v0,
           Event.store (CM_GPDIV.getD gpclk_number.val 0) (0x5A000000 ||| div),
           Event.store (CM_GPCTL.getD gpclk_number.val 0)
            (0x5A000000 ||| mash_stage.val ||| clk_source.val),
           Event.load (CM_GPCTL.getD gpclk_number.val 0) v1,
           Event.load (CM_GPCTL.getD gpclk_number.val 0) r,
           Event.store (CM_GPCTL.getD gpclk_number.val 0) (0x5A000000 ||| r ||| 0x10),
           Event.load (CM_GPCTL.getD gpclk_number.val 0) v2])
      ∧ v0 &&& CM_BUSY = 0 ∧ v1 &&& CM_BUSY = 0 ∧ r < 2 ^ 32 ∧ v2 &&& CM_BUSY ≠ 0)
    ∧ (0x5A000000 ||| mash_stage.val ||| clk_source.val) &&& CM_ENAB = 0
    ∧ (∀ frequency, clock_divisor frequency = some div →
        set_clk_frequency pf gpclk_number frequency (fuel + 2) s
          = start_clk_generator pf gpclk_number div .CM_PLLD .CM_MASH_1S (fuel + 2) s)
    ∧ 0x5A000000 ||| CM_MASH.CM_MASH_1S.val ||| CM_SRC.CM_PLLD.val = 0x5A000206
    ∧ (∀ (pf1 : Platform) (fuel1 : Nat) (s1 : Process),
        ∃ evs, (start_clk_generator pf1 gpclk_number div clk_source mash_stage fuel1 s1).state.trace
            = s1.trace ++ evs
          ∧ ((∀ e ∈ evs, ¬ e.isStoreTo (CM_GPDIV.getD gpclk_number.val 0))
            ∨ ∃ pre v w post,
                evs = pre ++ [Event.load (CM_GPCTL.getD gpclk_number.val 0) v,
                  Event.store (CM_GPDIV.getD gpclk_number.val 0) w] ++ post
                ∧ v &&& CM_BUSY = 0
                ∧ (∀ e ∈ pre, ¬ e.isStoreTo (CM_GPDIV.getD gpclk_number.val 0))
                ∧ (∀ e ∈ post, ¬ e.isStoreTo (CM_GPDIV.getD gpclk_number.val 0)))) := by
  refine ⟨start_clk_generator_ok hm gpclk_number hd clk_source mash_stage hf fuel s hclear,
    (setup_word mash_stage clk_source).2.1, ?_, by decide, ?_⟩
  · intro frequency hfreq
    simp only [set_clk_frequency, hfreq]
  · intro pf1 fuel1 s1
    exact start_clk_generator_guard pf1 gpclk_number div clk_source mash_stage fuel1 s1

/-- Witness for C8: the zeroed board, GPCLK0 and the default divisor meet the
hypotheses. -/
theorem start_clk_generator_order_witness :
    board.Mappable ∧ 19598 < 2 ^ 32
    ∧ BusyFollowsEnab board.bus (CM_GPCTL.getD CM_GPCLK.CM_GPCLK0.val 0) false
    ∧ board.word Process.start.trace (CM_GPCTL.getD CM_GPCLK.CM_GPCLK0.val 0) &&& CM_BUSY = 0
    ∧ 0x5A000000 ||| CM_MASH.CM_MASH_1S.val ||| CM_SRC.CM_PLLD.val = 0x5A000206 :=
  ⟨board_mappable, by decide,
    registerFile_busyFollowsEnab (fun _ => 0) _ (ctlReg_mem .CM_GPCLK0) false (by decide),
    by decide,
    (start_clk_generator_order board board_mappable .CM_GPCLK0 19598 (by decide) .CM_PLLD
      .CM_MASH_1S false
      (registerFile_busyFollowsEnab (fun _ => 0) _ (ctlReg_mem .CM_GPCLK0) false (by decide))
      0 Process.start (by decide)).2.2.2.1⟩

/-! ## The exit handler -/

theorem emits_set_gp_func (P : Event → Prop) (pf : Platform) (pin : Nat)
    (function : GP_FUNCTION) (s : Process)
    (hl : ∀ v, P (Event.load (GPFSEL.getD (pin / 10) 0) v))
    (hs : ∀ w, P (Event.store (GPFSEL.getD (pin / 10) 0) w)) :
    Emits P s (set_gp_func pf pin function s).state := by
  unfold set_gp_func
  by_cases hp : pin ≤ 53
  · rw [if_pos hp]
    apply emits_bind P s _ _ (emits_reg_get P pf _ s (hl _))
    intro v s1 _
    exact emits_reg_set P pf _ _ s1 (hs _)
  · rw [if_neg hp]
    exact Emits.of_trace_eq rfl

theorem lastStore_of_no_store (address : Nat) (t evs : List Event)
    (h : ∀ e ∈ evs, ¬ e.isStoreTo address) :
    lastStore address (t ++ evs) = lastStore address t := by
  induction evs using List.reverseRecOn with
  | nil => simp
  | append_singleton evs e ih =>
    rw [← List.append_assoc, lastStore_append, ih (fun e1 h1 => h e1 (by simp [h1]))]
    have he := h e (by simp)
    cases e with
    | load a v => rfl
    | store a w =>
      have ha : ¬ a = address := he
      simp [lastStoreStep, ha]

theorem emits_exit_handler (pf : Platform) (signum : Int) (fuel : Nat) (s : Process) :
    Emits Event.isCleanup s (exit_handler pf signum fuel s).state := by
  unfold exit_handler
  apply Emits.trans
    (show Emits Event.isCleanup s (puts "Cleaning resources..." s) from Emits.of_trace_eq rfl)
  apply emits_bind Event.isCleanup _ _ _
    (emits_set_gp_func Event.isCleanup pf 4 .GP_OUTPUT _ (fun _ => trivial)
      (fun _ => Or.inl rfl))
  intro _ s1 _
  apply emits_bind Event.isCleanup _ _ _
    (emits_stop_clk_generator Event.isCleanup pf .CM_GPCLK0 .CM_PLLD (fun _ => trivial)
      (Or.inr ⟨rfl, by decide⟩) fuel s1)
  intro _ s2 _
  exact Emits.refl _ s2

theorem stop_clk_generator_busy_ex {pf : Platform} (hm : pf.Mappable)
    (gpclk_number : CM_GPCLK) (clk_source : CM_SRC) {busy0 : Bool}
    (hf : BusyFollowsEnab pf.bus (ctlReg gpclk_number) busy0) (fuel : Nat) (s : Process)
    (hbusy : pf.word s.trace (ctlReg gpclk_number) &&& CM_BUSY ≠ 0) :
    ∃ c0 c1, stop_clk_generator pf gpclk_number clk_source (fuel + 2) s =
        .ret () (s.after pf
          [Event.load (ctlReg gpclk_number) c0,
           Event.store (ctlReg gpclk_number) (0x5A000000 ||| clk_source.val),
           Event.load (ctlReg gpclk_number) c1])
      ∧ c0 &&& CM_BUSY ≠ 0 ∧ c1 &&& CM_BUSY = 0 := by
  refine ⟨_, _, stop_clk_generator_busy hm gpclk_number clk_source hf fuel s hbusy, hbusy, ?_⟩
  have h := word_after_store hf
    (s.trace ++ [Event.load (ctlReg gpclk_number) (pf.word s.trace (ctlReg gpclk_number))])
    (0x5A000000 ||| clk_source.val)
  rw [(disable_word clk_source).2.1] at h
  simpa using h

theorem exit_handler_ok {pf : Platform} (hm : pf.Mappable) {busy0 : Bool}
    (hf : BusyFollowsEnab pf.bus (ctlReg .CM_GPCLK0) busy0) (signum : Int) (fuel : Nat)
    (s : Process) (hbusy : pf.word s.trace (ctlReg .CM_GPCLK0) &&& CM_BUSY ≠ 0) :
    ∃ c0 c1, exit_handler pf signum (fuel + 2) s =
        .exit signum ((puts "Cleaning resources..." s).after pf
          [Event.load 0x7E200000 (pf.word s.trace 0x7E200000),
           Event.store 0x7E200000 (gpfselWord (pf.word s.trace 0x7E200000) 4 .GP_OUTPUT),
           Event.load (ctlReg .CM_GPCLK0) c0, Event.store (ctlReg .CM_GPCLK0) 0x5A000006,
           Event.load (ctlReg .CM_GPCLK0) c1])
      ∧ c0 &&& CM_BUSY ≠ 0 ∧ c1 &&& CM_BUSY = 0 := by
  have hb2 : pf.word (((puts "Cleaning resources..." s).after pf
      [Event.load 0x7E200000 (pf.word s.trace 0x7E200000),
       Event.store 0x7E200000 (gpfselWord (pf.word s.trace 0x7E200000) 4 .GP_OUTPUT)]).trace)
      (ctlReg .CM_GPCLK0) &&& CM_BUSY ≠ 0 := by
    have h1 := word_after_other hf (s.trace ++
      [Event.load 0x7E200000 (pf.word s.trace 0x7E200000)])
      (gpfselWord (pf.word s.trace 0x7E200000) 4 .GP_OUTPUT)
      (show (0x7E200000 : Nat) ≠ ctlReg .CM_GPCLK0 by decide)
    have h2 := word_after_load hf s.trace 0x7E200000 (pf.word s.trace 0x7E200000)
    have h3 := (h1.trans h2).mpr hbusy
    simpa [after_trace, puts] using h3
  obtain ⟨c0, c1, hstop, h0, h1⟩ :=
    stop_clk_generator_busy_ex hm .CM_GPCLK0 .CM_PLLD hf fuel _ hb2
  refine ⟨c0, c1, ?_, h0, h1⟩
  unfold exit_handler
  rw [set_gp_func_ok hm (by norm_num) .GP_OUTPUT, bind_ret]
  have hstop2 : stop_clk_generator pf .CM_GPCLK0 .CM_PLLD (fuel + 2)
      ((puts "Cleaning resources..." s).after pf
        [Event.load (GPFSEL.getD (4 / 10) 0)
          (pf.word (puts "Cleaning resources..." s).trace (GPFSEL.getD (4 / 10) 0)),
         Event.store (GPFSEL.getD (4 / 10) 0)
          (gpfselWord (pf.word (puts "Cleaning resources..." s).trace (GPFSEL.getD (4 / 10) 0))
            (4 % 10) .GP_OUTPUT)]) = _ := hstop
  rw [hstop2, bind_ret, after_after]
  rfl

theorem state_bind_exit (r : Result Unit) (signum : Int) :
    (r.bind fun _ s => (Result.exit signum s : Result Unit)).state = r.state := by
  cases r <;> rfl

theorem stop_clk_generator_busy_stores {pf : Platform} (hm : pf.Mappable)
    (gpclk_number : CM_GPCLK) (clk_source : CM_SRC) (fuel : Nat) (s : Process)
    (hbusy : pf.word s.trace (ctlReg gpclk_number) &&& CM_BUSY ≠ 0) :
    ∃ k, stores (stop_clk_generator pf gpclk_number clk_source (fuel + 1) s).state.trace
      = stores s.trace
        ++ List.replicate (k + 1) (ctlReg gpclk_number, 0x5A000000 ||| clk_source.val) := by
  rw [stop_clk_generator, reg_get_ok hm, bind_ret, if_pos hbusy, reg_set_ok hm, bind_ret,
    (disable_word clk_source).1]
  obtain ⟨k, hk, -⟩ := stop_clk_generator_inv pf gpclk_number clk_source fuel
    ((s.after pf
      [Event.load (ctlReg gpclk_number) (pf.word s.trace (ctlReg gpclk_number))]).after pf
      [Event.store (ctlReg gpclk_number) (0x5A000000 ||| clk_source.val)])
  refine ⟨k, ?_⟩
  rw [hk]
  simp [after_trace, stores_append, stores, List.replicate_succ]

/-- On any platform where mapping succeeds, if BUSY is set when the handler
polls the control register, its stores are one to GPFSEL0 followed by one or
more of the disable word to CM_GP0CTL. -/
theorem exit_handler_stores {pf : Platform} (hm : pf.Mappable) (signum : Int) (fuel : Nat)
    (s : Process)
    (hbusy : pf.word (s.trace ++
      [Event.load 0x7E200000 (pf.word s.trace 0x7E200000),
       Event.store 0x7E200000 (gpfselWord (pf.word s.trace 0x7E200000) 4 .GP_OUTPUT)])
      (ctlReg .CM_GPCLK0) &&& CM_BUSY ≠ 0) :
    ∃ k, stores (exit_handler pf signum (fuel + 1) s).state.trace
      = stores s.trace
        ++ (0x7E200000, gpfselWord (pf.word s.trace 0x7E200000) 4 .GP_OUTPUT)
          :: List.replicate (k + 1) (0x7E101070, 0x5A000006) := by
  have hb2 : pf.word (((puts "Cleaning resources..." s).after pf
      [Event.load 0x7E200000 (pf.word s.trace 0x7E200000),
       Event.store 0x7E200000 (gpfselWord (pf.word s.trace 0x7E200000) 4 .GP_OUTPUT)]).trace)
      (ctlReg .CM_GPCLK0) &&& CM_BUSY ≠ 0 := by
    simpa [after_trace, puts] using hbusy
  obtain ⟨k, hk⟩ := stop_clk_generator_busy_stores hm .CM_GPCLK0 .CM_PLLD fuel _ hb2
  have hk2 : stores (stop_clk_generator pf .CM_GPCLK0 .CM_PLLD (fuel + 1)
      ((puts "Cleaning resources..." s).after pf
        [Event.load (GPFSEL.getD (4 / 10) 0)
          (pf.word (puts "Cleaning resources..." s).trace (GPFSEL.getD (4 / 10) 0)),
         Event.store (GPFSEL.getD (4 / 10) 0)
          (gpfselWord (pf.word (puts "Cleaning resources..." s).trace (GPFSEL.getD (4 / 10) 0))
            (4 % 10) .GP_OUTPUT)])).state.trace = _ := hk
  refine ⟨k, ?_⟩
  unfold exit_handler
  rw [set_gp_func_ok hm (by norm_num) .GP_OUTPUT, bind_ret, state_bind_exit, hk2, after_trace,
    stores_append]
  simp only [stores, List.append_assoc, List.singleton_append, List.nil_append]
  rfl

/-- C7: where mapping succeeds and the generator answers at once, in every
register state in which BUSY of CM_GP0CTL is set, `exit_handler` performs one
store to GPFSEL0 (0x7E200000), then one store of the disable word
`0x5A000006` (password and PLLD, ENAB clear) to CM_GP0CTL (0x7E101070), and
exits with the signal number.  On every platform and for any fuel, its stores
go to these two registers only, those to CM_GP0CTL carry `0x5A000006`, and the
word last stored to any other register is as before; and wherever mapping
succeeds and BUSY is set when the handler polls, the stores are one to GPFSEL0
followed by one or more of `0x5A000006` to CM_GP0CTL. -/
theorem exit_handler_writes (pf : Platform) (hm : pf.Mappable) (busy0 : Bool)
    (hf : BusyFollowsEnab pf.bus 0x7E101070 busy0) (signum : Int) (fuel : Nat) (s : Process)
    (hbusy : pf.word s.trace 0x7E101070 &&& CM_BUSY ≠ 0) :
    (∃ v w c0 c1, exit_handler pf signum (fuel + 2) s =
        .exit signum ((puts "Cleaning resources..." s).after pf
          [Event.load 0x7E200000 v, Event.store 0x7E200000 w,
           Event.load 0x7E101070 c0, Event.store 0x7E101070 0x5A000006,
           Event.load 0x7E101070 c1])
      ∧ c1 &&& CM_BUSY = 0)
    ∧ CM_PASSWD ||| CM_SRC.CM_PLLD.val = 0x5A000006
    ∧ 0x5A000006 &&& CM_ENAB = 0
    ∧ (∀ (pf1 : Platform) (fuel1 : Nat) (s1 : Process),
        (∃ evs, (exit_handler pf1 signum fuel1 s1).state.trace = s1.trace ++ evs
          ∧ ∀ e ∈ evs, e.isCleanup)
        ∧ (∀ a, a ≠ 0x7E200000 → a ≠ 0x7E101070 →
            lastStore a (exit_handler pf1 signum fuel1 s1).state.trace = lastStore a s1.trace)
        ∧ (pf1.Mappable →
            pf1.word (s1.trace ++
              [Event.load 0x7E200000 (pf1.word s1.trace 0x7E200000),
               Event.store 0x7E200000 (gpfselWord (pf1.word s1.trace 0x7E200000) 4 .GP_OUTPUT)])
              0x7E101070 &&& CM_BUSY ≠ 0 →
            ∃ k, stores (exit_handler pf1 signum (fuel1 + 1) s1).state.trace
              = stores s1.trace
                ++ (0x7E200000, gpfselWord (pf1.word s1.trace 0x7E200000) 4 .GP_OUTPUT)
                  :: List.replicate (k + 1) (0x7E101070, 0x5A000006))) := by
  obtain ⟨c0, c1, h, -, hc1⟩ := exit_handler_ok hm hf signum fuel s hbusy
  refine ⟨⟨_, _, c0, c1, h, hc1⟩, by decide, by decide, ?_⟩
  intro pf1 fuel1 s1
  have he := emits_exit_handler pf1 signum fuel1 s1
  refine ⟨he, ?_, fun hm1 hb1 => exit_handler_stores hm1 signum fuel1 s1 hb1⟩
  intro a ha1 ha2
  obtain ⟨evs, ht, hp⟩ := he
  rw [ht]
  apply lastStore_of_no_store
  intro e hmem
  have hpe := hp e hmem
  cases e with
  | load b v => exact fun h2 => h2
  | store b w =>
    intro hb
    have hb2 : b = a := hb
    rcases hpe with h3 | ⟨h3, -⟩
    · exact ha1 (hb2.symm.trans h3)
    · exact ha2 (hb2.symm.trans h3)

/-- Witness for C7: a board whose generator is running, CM_GP0CTL holding
`0x296` (BUSY and ENAB set), meets the hypotheses. -/
theorem exit_handler_writes_witness :
    board.Mappable
    ∧ BusyFollowsEnab (registerFile fun a => if a = 0x7E101070 then 0x296 else 0) 0x7E101070 true
    ∧ CM_PASSWD ||| CM_SRC.CM_PLLD.val = 0x5A000006 :=
  ⟨board_mappable,
    registerFile_busyFollowsEnab _ _ (by decide) true (by decide),
    (exit_handler_writes
      { bus := registerFile fun a => if a = 0x7E101070 then 0x296 else 0
        devmem := true
        mmap := some 0x76F00000
        signal := fun _ => true }
      ⟨rfl, rfl⟩ true (registerFile_busyFollowsEnab _ _ (by decide) true (by decide))
      2 0 Process.start (by decide)).2.1⟩

/-! ## Error bounds of the floating-point steps -/

theorem ilog2Aux_bounds (fuel n : Nat) (h : n ≤ fuel) :
    (1 ≤ n → 2 ^ ilog2Aux fuel n ≤ n) ∧ n < 2 ^ (ilog2Aux fuel n + 1) := by
  induction fuel generalizing n with
  | zero =>
    have h0 : n = 0 := Nat.le_zero.mp h
    subst h0
    simp [ilog2Aux]
  | succ fuel ih =>
    unfold ilog2Aux
    by_cases h2 : n < 2
    · rw [if_pos h2]
      constructor
      · intro h1
        simpa using h1
      · simpa using h2
    · rw [if_neg h2]
      have hle : n / 2 ≤ fuel := by omega
      have h1 : 1 ≤ n / 2 := by omega
      obtain ⟨ihl, ihu⟩ := ih (n / 2) hle
      have hl := ihl h1
      constructor
      · intro _
        rw [pow_succ]
        omega
      · rw [pow_succ]
        omega

theorem ilog2_le {n : Nat} (h : 1 ≤ n) : 2 ^ ilog2 n ≤ n :=
  (ilog2Aux_bounds n n (le_refl n)).1 h

theorem lt_ilog2 (n : Nat) : n < 2 ^ (ilog2 n + 1) :=
  (ilog2Aux_bounds n n (le_refl n)).2

/-- The rounded quotient is within half a unit of the true quotient. -/
theorem roundHalfEven_bounds (n d : Nat) (hd : 0 < d) :
    2 * n ≤ 2 * (roundHalfEven n d * d) + d ∧ 2 * (roundHalfEven n d * d) ≤ 2 * n + d := by
  have hdiv : n / d * d + n % d = n := Nat.div_add_mod' n d
  have hmod : n % d < d := Nat.mod_lt n hd
  have hsucc : (n / d + 1) * d = n / d * d + d := by ring
  unfold roundHalfEven
  split_ifs <;> omega

theorem err_core (Y N b P : Nat) (h1 : 2 * N ≤ 2 * Y + b) (h2 : 2 * Y ≤ 2 * N + b)
    (hkey : b * P ≤ N) :
    Y * (P * 2) ≤ N * (P * 2) + N ∧ N * (P * 2) ≤ Y * (P * 2) + N := by
  have e1 := Nat.mul_le_mul_right P h1
  have e2 := Nat.mul_le_mul_right P h2
  constructor <;> nlinarith [e1, e2, hkey]

/-- Relative error of `roundSig`: with `r = roundSig p a b`, the distance of
`r.num / r.den` from `a / b` is at most `(a / b) / 2 ^ p`, here cleared of
denominators. -/
theorem roundSig_bounds (p a b : Nat) (hp : 1 ≤ p) (ha : 0 < a) (hb : 0 < b) :
    0 < (roundSig p a b).den
    ∧ (roundSig p a b).num * b * 2 ^ p ≤ a * (roundSig p a b).den * 2 ^ p + a * (roundSig p a b).den
    ∧ a * (roundSig p a b).den * 2 ^ p
        ≤ (roundSig p a b).num * b * 2 ^ p + a * (roundSig p a b).den := by
  obtain ⟨q, rfl⟩ : ∃ q, p = q + 1 := ⟨p - 1, by omega⟩
  unfold roundSig
  by_cases hba : b ≤ a
  · rw [if_pos hba]
    have hq1 : 1 ≤ a / b := (Nat.one_le_div_iff hb).mpr hba
    have hlog : 2 ^ ilog2 (a / b) * b ≤ a :=
      le_trans (Nat.mul_le_mul_right b (ilog2_le hq1)) (Nat.div_mul_le_self a b)
    by_cases he : ilog2 (a / b) + 1 ≤ q + 1
    · rw [if_pos he]
      simp only [Nat.add_sub_cancel]
      obtain ⟨h1, h2⟩ := roundHalfEven_bounds (a * 2 ^ (q - ilog2 (a / b))) b hb
      have hpow : (2 : Nat) ^ q = 2 ^ (q - ilog2 (a / b)) * 2 ^ ilog2 (a / b) := by
        rw [← pow_add]
        congr 1
        omega
      have hkey : b * 2 ^ q ≤ a * 2 ^ (q - ilog2 (a / b)) := by
        rw [hpow]
        calc b * (2 ^ (q - ilog2 (a / b)) * 2 ^ ilog2 (a / b))
            = 2 ^ ilog2 (a / b) * b * 2 ^ (q - ilog2 (a / b)) := by ring
          _ ≤ a * 2 ^ (q - ilog2 (a / b)) := Nat.mul_le_mul_right _ hlog
      obtain ⟨g1, g2⟩ := err_core _ _ _ _ h1 h2 hkey
      rw [pow_succ]
      exact ⟨by positivity, g1, g2⟩
    · rw [if_neg he]
      have hD : 0 < b * 2 ^ (ilog2 (a / b) + 1 - (q + 1)) := by positivity
      obtain ⟨h1, h2⟩ := roundHalfEven_bounds a (b * 2 ^ (ilog2 (a / b) + 1 - (q + 1))) hD
      have hpow : (2 : Nat) ^ ilog2 (a / b) = 2 ^ (ilog2 (a / b) + 1 - (q + 1)) * 2 ^ q := by
        rw [← pow_add]
        congr 1
        omega
      have hkey : b * 2 ^ (ilog2 (a / b) + 1 - (q + 1)) * 2 ^ q ≤ a := by
        rw [mul_assoc, ← hpow, mul_comm]
        exact hlog
      obtain ⟨g1, g2⟩ := err_core _ _ _ _ h1 h2 hkey
      dsimp only
      rw [pow_succ]
      refine ⟨by norm_num, ?_, ?_⟩
      · linarith [g1]
      · linarith [g2]
  · rw [if_neg hba]
    obtain ⟨h1, h2⟩ := roundHalfEven_bounds (a * 2 ^ (q + 1 + ilog2 ((b - 1) / a))) b hb
    have hlt : (b - 1) / a < 2 ^ (ilog2 ((b - 1) / a) + 1) := lt_ilog2 _
    have hlt2 : b - 1 < 2 ^ (ilog2 ((b - 1) / a) + 1) * a := (Nat.div_lt_iff_lt_mul ha).mp hlt
    have hb2 : b ≤ a * 2 ^ (ilog2 ((b - 1) / a) + 1) := by
      rw [mul_comm]
      omega
    have hkey : b * 2 ^ q ≤ a * 2 ^ (q + 1 + ilog2 ((b - 1) / a)) := by
      have hpow : (2 : Nat) ^ (q + 1 + ilog2 ((b - 1) / a))
          = 2 ^ (ilog2 ((b - 1) / a) + 1) * 2 ^ q := by
        rw [← pow_add]
        congr 1
        omega
      rw [hpow, ← mul_assoc]
      exact Nat.mul_le_mul_right _ hb2
    obtain ⟨g1, g2⟩ := err_core _ _ _ _ h1 h2 hkey
    dsimp only
    rw [pow_succ]
    exact ⟨by positivity, g1, g2⟩

theorem ratio_bounds (n d a b P : Nat) (hd : 0 < d) (hb : 0 < b) (hP : 0 < P)
    (h1 : n * b * P ≤ a * d * P + a * d) (h2 : a * d * P ≤ n * b * P + a * d) :
    (n : ℚ) / d ≤ (a : ℚ) / b * (1 + 1 / P) ∧ (a : ℚ) / b * (1 - 1 / P) ≤ (n : ℚ) / d := by
  have h1q : (n : ℚ) * b * P ≤ a * d * P + a * d := by exact_mod_cast h1
  have h2q : (a : ℚ) * d * P ≤ n * b * P + a * d := by exact_mod_cast h2
  have hdq : (0 : ℚ) < d := by exact_mod_cast hd
  have hbq : (0 : ℚ) < b := by exact_mod_cast hb
  have hPq : (0 : ℚ) < P := by exact_mod_cast hP
  constructor
  · rw [div_le_iff₀ hdq]
    have e : (a : ℚ) / b * (1 + 1 / P) * d = (a * d * P + a * d) / (b * P) := by
      field_simp
      ring
    rw [e, le_div_iff₀ (by positivity)]
    linarith
  · rw [le_div_iff₀ hdq]
    have e : (a : ℚ) / b * (1 - 1 / P) * d = (a * d * P - a * d) / (b * P) := by
      field_simp
      ring
    rw [e, div_le_iff₀ (by positivity)]
    linarith

theorem floor_bounds (n d : Nat) (hd : 0 < d) :
    ((n / d : Nat) : ℚ) ≤ (n : ℚ) / d ∧ (n : ℚ) / d < ((n / d : Nat) : ℚ) + 1 := by
  have hdq : (0 : ℚ) < d := by exact_mod_cast hd
  have h1 : n / d * d ≤ n := Nat.div_mul_le_self n d
  have h2 : n < (n / d + 1) * d := by
    rw [mul_comm]
    exact Nat.lt_mul_div_succ n hd
  have h1q : ((n / d : Nat) : ℚ) * d ≤ n := by exact_mod_cast h1
  have h2q : (n : ℚ) < (((n / d : Nat) : ℚ) + 1) * d := by exact_mod_cast h2
  exact ⟨(le_div_iff₀ hdq).mpr h1q, (div_lt_iff₀ hdq).mpr h2q⟩

/-- The value `clock_divisor` converts, against the exact quotient. -/
theorem divisor_value_near (f : Nat) (hf : 0 < f) :
    scaledQuotient f ≤ PLLDFREQ * 4096 / f + PLLDFREQ * 4096 / f / 2 ^ 23 + 1
    ∧ PLLDFREQ * 4096 / f ≤ scaledQuotient f + PLLDFREQ * 4096 / f / 2 ^ 23 + 1 := by
  unfold scaledQuotient
  have hA : 0 < PLLDFREQ := by decide
  obtain ⟨hd1, a1, a2⟩ := roundSig_bounds 53 PLLDFREQ f (by norm_num) hA hf
  generalize (roundSig 53 PLLDFREQ f).num = n1 at *
  generalize (roundSig 53 PLLDFREQ f).den = d1 at *
  have hn1 : 0 < n1 := by
    rcases Nat.eq_zero_or_pos n1 with h0 | h0
    · subst h0
      have hpos : 0 < PLLDFREQ * d1 := Nat.mul_pos hA hd1
      have : PLLDFREQ * d1 * 2 ^ 53 ≤ PLLDFREQ * d1 := by simpa using a2
      have h2 : PLLDFREQ * d1 * 2 ≤ PLLDFREQ * d1 * 2 ^ 53 :=
        Nat.mul_le_mul_left _ (by norm_num)
      omega
    · exact h0
  obtain ⟨hd2, b1, b2⟩ := roundSig_bounds 24 n1 d1 (by norm_num) hn1 hd1
  generalize (roundSig 24 n1 d1).num = n2 at *
  generalize (roundSig 24 n1 d1).den = d2 at *
  obtain ⟨u1, u2⟩ := ratio_bounds n1 d1 PLLDFREQ f (2 ^ 53) hd1 hf (by positivity) a1 a2
  obtain ⟨v1, v2⟩ := ratio_bounds n2 d2 n1 d1 (2 ^ 24) hd2 hd1 (by positivity) b1 b2
  obtain ⟨fd1, fd2⟩ := floor_bounds (n2 * 2 ^ 12) d2 hd2
  obtain ⟨fe1, fe2⟩ := floor_bounds (PLLDFREQ * 4096) f hf
  have hk : PLLDFREQ * 4096 / f < (PLLDFREQ * 4096 / f / 2 ^ 23 + 1) * 2 ^ 23 := by
    rw [Nat.mul_comm (_ + 1) (2 ^ 23)]
    exact Nat.lt_mul_div_succ _ (by positivity)
  have hkq : ((PLLDFREQ * 4096 / f : Nat) : ℚ) + 1
      ≤ (((PLLDFREQ * 4096 / f / 2 ^ 23 : Nat) : ℚ) + 1) * 2 ^ 23 := by
    exact_mod_cast hk
  generalize PLLDFREQ * 4096 / f / 2 ^ 23 = k at *
  generalize hE : PLLDFREQ * 4096 / f = E at *
  generalize hD : n2 * 2 ^ 12 / d2 = D at *
  have hx : (0 : ℚ) ≤ (PLLDFREQ : ℚ) / f := by positivity
  have hu : (0 : ℚ) ≤ (n1 : ℚ) / d1 := by positivity
  push_cast at u1 u2 v1 v2 fd1 fd2 fe1 fe2
  have fe1' : (E : ℚ) ≤ (PLLDFREQ : ℚ) / f * 4096 := by
    have e : (PLLDFREQ : ℚ) / f * 4096 = (PLLDFREQ : ℚ) * 4096 / f := by ring
    rw [e]
    exact fe1
  have fe2' : (PLLDFREQ : ℚ) / f * 4096 < (E : ℚ) + 1 := by
    have e : (PLLDFREQ : ℚ) / f * 4096 = (PLLDFREQ : ℚ) * 4096 / f := by ring
    rw [e]
    exact fe2
  generalize (PLLDFREQ : ℚ) / f = x at *
  generalize (n1 : ℚ) / d1 = u at *
  have fd1' : (D : ℚ) ≤ (n2 : ℚ) / d2 * 4096 := by
    have e : (n2 : ℚ) / d2 * 4096 = (n2 : ℚ) * 4096 / d2 := by ring
    rw [e]
    exact fd1
  have fd2' : (n2 : ℚ) / d2 * 4096 < (D : ℚ) + 1 := by
    have e : (n2 : ℚ) / d2 * 4096 = (n2 : ℚ) * 4096 / d2 := by ring
    rw [e]
    exact fd2
  generalize (n2 : ℚ) / d2 = v at *
  have up : v ≤ x * (1 + 1 / 2 ^ 23) := by
    have s1 : u * (1 + 1 / 2 ^ 24) ≤ x * (1 + 1 / 2 ^ 53) * (1 + 1 / 2 ^ 24) :=
      mul_le_mul_of_nonneg_right u1 (by norm_num)
    have s2 : x * ((1 + 1 / 2 ^ 53) * (1 + 1 / 2 ^ 24)) ≤ x * (1 + 1 / 2 ^ 23) :=
      mul_le_mul_of_nonneg_left (by norm_num) hx
    linarith
  have lo : x * (1 - 1 / 2 ^ 23) ≤ v := by
    have s1 : x * (1 - 1 / 2 ^ 53) * (1 - 1 / 2 ^ 24) ≤ u * (1 - 1 / 2 ^ 24) :=
      mul_le_mul_of_nonneg_right u2 (by norm_num)
    have s2 : x * (1 - 1 / 2 ^ 23) ≤ x * ((1 - 1 / 2 ^ 53) * (1 - 1 / 2 ^ 24)) :=
      mul_le_mul_of_nonneg_left (by norm_num) hx
    linarith
  constructor
  · have : (D : ℚ) < (E : ℚ) + (k : ℚ) + 2 := by
      linarith
    have h3 : D < E + k + 2 := by exact_mod_cast this
    omega
  · have : (E : ℚ) < (D : ℚ) + (k : ℚ) + 2 := by
      linarith
    have h3 : E < D + k + 2 := by exact_mod_cast this
    omega

/-! ## The divisor -/

theorem clock_divisor_eq_of_lt (f : Nat) (hf : 0 < f) (h : scaledQuotient f < 2 ^ 32) :
    clock_divisor f = some (scaledQuotient f) := by
  unfold clock_divisor
  rw [if_neg (Nat.pos_iff_ne_zero.mp hf), if_pos h]

theorem clock_divisor_defined (f : Nat) (h1 : 477 ≤ f) :
    ∃ d, clock_divisor f = some d
      ∧ d ≤ PLLDFREQ * 4096 / f + PLLDFREQ * 4096 / f / 2 ^ 23 + 1
      ∧ PLLDFREQ * 4096 / f ≤ d + PLLDFREQ * 4096 / f / 2 ^ 23 + 1 := by
  have hf : 0 < f := by omega
  obtain ⟨g1, g2⟩ := divisor_value_near f hf
  have hE : PLLDFREQ * 4096 / f ≤ PLLDFREQ * 4096 / 477 := Nat.div_le_div_left h1 (by norm_num)
  have hE2 : PLLDFREQ * 4096 / 477 = 4293501048 := by decide
  rw [hE2] at hE
  refine ⟨_, clock_divisor_eq_of_lt f hf ?_, g1, g2⟩
  have hk : PLLDFREQ * 4096 / f / 2 ^ 23 ≤ 4293501048 / 2 ^ 23 := Nat.div_le_div_right hE
  have hk2 : 4293501048 / 2 ^ 23 = 511 := by norm_num
  rw [hk2] at hk
  have h32 : (2 : Nat) ^ 32 = 4294967296 := by norm_num
  rw [h32]
  omega

theorem clock_divisor_fits (f : Nat) (h1 : 122071 ≤ f) :
    ∃ d, clock_divisor f = some d ∧ d < 2 ^ 24 := by
  obtain ⟨d, hd, g1, -⟩ := clock_divisor_defined f (by omega)
  have hE : PLLDFREQ * 4096 / f ≤ PLLDFREQ * 4096 / 122071 :=
    Nat.div_le_div_left h1 (by norm_num)
  have hE2 : PLLDFREQ * 4096 / 122071 = 16777121 := by decide
  rw [hE2] at hE
  have hk : PLLDFREQ * 4096 / f / 2 ^ 23 ≤ 16777121 / 2 ^ 23 := Nat.div_le_div_right hE
  have hk2 : 16777121 / 2 ^ 23 = 1 := by norm_num
  rw [hk2] at hk
  have h24 : (2 : Nat) ^ 24 = 16777216 := by norm_num
  refine ⟨d, hd, ?_⟩
  rw [h24]
  omega

/-- C1, as stated, fails: for 105.9 MHz the program's divisor is 19339 while
`(500000000 / f) * 4096` in exact arithmetic truncates to 19338; for 500000001 Hz
it is 4096 against 4095.  Both results are below `2 ^ 32`. -/
theorem clock_divisor_not_exact :
    (1 ≤ 105900000 ∧ 105900000 < 2 ^ 32 ∧ PLLDFREQ * 4096 / 105900000 = 19338
      ∧ clock_divisor 105900000 = some 19339)
    ∧ (1 ≤ 500000001 ∧ 500000001 < 2 ^ 32 ∧ PLLDFREQ * 4096 / 500000001 = 4095
      ∧ clock_divisor 500000001 = some 4096) := by
  decide

/-- C1, amended: for every frequency `f ≥ 477` (those for which the exact result
`E = ⌊500000000 * 4096 / f⌋` is below `2 ^ 32`) the conversion is defined, and the
divisor that `set_clk_frequency` passes to `start_clk_generator` differs from `E`
by at most `⌊E / 2 ^ 23⌋ + 1`: the quotient is rounded to `double` and then to
`float` before it is scaled and truncated. -/
theorem clock_divisor_near_exact (pf : Platform) (gpclk_number : CM_GPCLK) (f : Nat)
    (h1 : 477 ≤ f) (fuel : Nat) (s : Process) :
    ∃ d, clock_divisor f = some d
      ∧ set_clk_frequency pf gpclk_number f fuel s
          = start_clk_generator pf gpclk_number d .CM_PLLD .CM_MASH_1S fuel s
      ∧ d < 2 ^ 32
      ∧ d ≤ PLLDFREQ * 4096 / f + PLLDFREQ * 4096 / f / 2 ^ 23 + 1
      ∧ PLLDFREQ * 4096 / f ≤ d + PLLDFREQ * 4096 / f / 2 ^ 23 + 1 := by
  obtain ⟨d, hd, g1, g2⟩ := clock_divisor_defined f h1
  refine ⟨d, hd, by simp only [set_clk_frequency, hd], ?_, g1, g2⟩
  unfold clock_divisor at hd
  split_ifs at hd with h0 h2
  injection hd with hd
  rw [← hd]
  exact h2

/-- Witness for C1 as amended: the default frequency, whose divisor is within
one of 19598. -/
theorem clock_divisor_near_exact_witness :
    477 ≤ 104500000 ∧ ∃ d, clock_divisor 104500000 = some d
      ∧ set_clk_frequency board .CM_GPCLK0 104500000 2 Process.start
          = start_clk_generator board .CM_GPCLK0 d .CM_PLLD .CM_MASH_1S 2 Process.start
      ∧ d < 2 ^ 32
      ∧ d ≤ PLLDFREQ * 4096 / 104500000 + PLLDFREQ * 4096 / 104500000 / 2 ^ 23 + 1
      ∧ PLLDFREQ * 4096 / 104500000 ≤ d + PLLDFREQ * 4096 / 104500000 / 2 ^ 23 + 1 :=
  ⟨by decide, clock_divisor_near_exact board .CM_GPCLK0 104500000 (by decide) 2 Process.start⟩

/-! ## The password field -/

theorem emits_start_clk_generator (P : Event → Prop) (pf : Platform) (gpclk_number : CM_GPCLK)
    (div : Nat) (clk_source : CM_SRC) (mash_stage : CM_MASH)
    (hl : ∀ v, P (Event.load (ctlReg gpclk_number) v))
    (h1 : P (Event.store (ctlReg gpclk_number) (0x5A000000 ||| clk_source.val)))
    (h2 : P (Event.store (divReg gpclk_number) ((CM_PASSWD ||| div) % 2 ^ 32)))
    (h3 : P (Event.store (ctlReg gpclk_number)
      (0x5A000000 ||| mash_stage.val ||| clk_source.val)))
    (h4 : ∀ t, P (Event.store (ctlReg gpclk_number)
      ((CM_PASSWD ||| pf.word t (ctlReg gpclk_number) ||| CM_ENAB) % 2 ^ 32)))
    (fuel : Nat) (s : Process) :
    Emits P s (start_clk_generator pf gpclk_number div clk_source mash_stage fuel s).state := by
  unfold start_clk_generator
  apply emits_bind P s _ _ (emits_stop_clk_generator P pf gpclk_number clk_source hl h1 fuel s)
  intro _ s1 _
  apply emits_bind P s1 _ _ (emits_reg_set P pf _ _ s1 h2)
  intro _ s2 _
  apply emits_bind P s2 _ _ (emits_reg_set P pf _ _ s2 ?_)
  · intro _ s3 _
    exact emits_enable_loop P pf gpclk_number hl h4 fuel s3
  · rw [(setup_word mash_stage clk_source).1]
    exact h3

theorem password_or {x : Nat} (hx : x < 2 ^ 24) : (0x5A000000 ||| x) >>> 24 = 0x5A := by
  apply Nat.eq_of_testBit_eq
  intro i
  have h : x.testBit (24 + i) = false :=
    Nat.testBit_lt_two_pow (lt_of_lt_of_le hx (Nat.pow_le_pow_right (by norm_num) (by omega)))
  have h2 : (0x5A000000 : Nat) >>> 24 = 0x5A := by decide
  rw [Nat.testBit_shiftRight, Nat.testBit_or, h, Bool.or_false, ← Nat.testBit_shiftRight, h2]

theorem registerFile_ctl_lt (regs : Nat → Nat) (ctl : Nat) (h : ctl ∈ CM_GPCTL)
    (h0 : regs ctl < 2 ^ 24) (t : List Event) : registerFile regs t ctl < 2 ^ 24 := by
  induction t using List.reverseRecOn with
  | nil => exact h0
  | append_singleton t e ih =>
    rw [registerFile_append]
    cases e with
    | load a v => exact ih
    | store a w =>
      by_cases ha : ctl = a
      · subst ha
        have hw : w % 2 ^ 24 < 2 ^ 24 := Nat.mod_lt _ (by positivity)
        simp only [regStep, if_true, h]
        split_ifs
        · exact Nat.or_lt_two_pow hw (by decide)
        · exact lt_of_le_of_lt Nat.and_le_left hw
      · simpa [regStep, ha] using ih

theorem board_ctl_lt (t : List Event) : board.word t 0x7E101070 < 2 ^ 24 := by
  have h := registerFile_ctl_lt (fun _ => 0) 0x7E101070 (by decide) (by decide) t
  unfold Platform.word
  exact lt_of_le_of_lt (Nat.mod_le _ _) h

/-- C3, as stated, fails: on the zeroed board, whose control register always
reads with bits 31..24 zero, `set_clk_frequency(CM_GPCLK0, 1000)` stores
`0x7A120000` to CM_GP0DIV, a word whose bits 31..24 are `0x7A`. -/
theorem set_clk_frequency_password_counterexample :
    (∀ t, board.word t 0x7E101070 < 2 ^ 24) ∧ 1 ≤ 1000
    ∧ clock_divisor 1000 = some 2048000000
    ∧ Event.store 0x7E101074 0x7A120000
        ∈ (set_clk_frequency board .CM_GPCLK0 1000 2 Process.start).state.trace
    ∧ 0x7A120000 >>> 24 = 0x7A ∧ 0x7A120000 >>> 24 ≠ 0x5A :=
  ⟨board_ctl_lt, by decide, by decide, by decide, by decide, by decide⟩

/-- C3, amended: for every requested frequency `f ≥ 122071` (those whose divisor
fits the 24 bits below the password), on any platform whose control register
reads with bits 31..24 zero and for any fuel, every word that
`set_clk_frequency(CM_GPCLK0, f)` stores goes to CM_GP0DIV or CM_GP0CTL and
carries `0x5A` in bits 31..24. -/
theorem set_clk_frequency_password (pf : Platform) (f : Nat) (h1 : 122071 ≤ f)
    (hreads : ∀ t, pf.word t 0x7E101070 < 2 ^ 24) (fuel : Nat) (s : Process) :
    ∃ evs, (set_clk_frequency pf .CM_GPCLK0 f fuel s).state.trace = s.trace ++ evs
      ∧ ∀ a w, Event.store a w ∈ evs →
          (a = 0x7E101074 ∨ a = 0x7E101070) ∧ w < 2 ^ 32 ∧ w >>> 24 = 0x5A := by
  obtain ⟨d, hd, hd24⟩ := clock_divisor_fits f h1
  have hd32 : d < 2 ^ 32 := lt_trans hd24 (by norm_num)
  have he : Emits Event.hasPassword s
      (set_clk_frequency pf .CM_GPCLK0 f fuel s).state := by
    simp only [set_clk_frequency, hd]
    apply emits_start_clk_generator Event.hasPassword pf .CM_GPCLK0 d .CM_PLLD .CM_MASH_1S
      (fun _ => trivial)
    · exact ⟨Or.inr rfl, by decide, by decide⟩
    · rw [divisor_word hd32]
      exact ⟨Or.inl rfl, Nat.or_lt_two_pow (by decide) hd32, password_or hd24⟩
    · exact ⟨Or.inr rfl, by decide, by decide⟩
    · intro t
      have hr : pf.word t (ctlReg .CM_GPCLK0) < 2 ^ 24 := hreads t
      have hr32 : pf.word t (ctlReg .CM_GPCLK0) < 2 ^ 32 := lt_trans hr (by norm_num)
      rw [(enable_word hr32).1]
      refine ⟨Or.inr rfl, Nat.or_lt_two_pow (Nat.or_lt_two_pow (by decide) hr32) (by decide), ?_⟩
      rw [Nat.or_assoc]
      exact password_or (Nat.or_lt_two_pow hr (by decide))
  obtain ⟨evs, ht, hp⟩ := he
  exact ⟨evs, ht, fun a w hmem => hp _ hmem⟩

/-- Witness for C3 as amended: the default frequency on the zeroed board. -/
theorem set_clk_frequency_password_witness :
    122071 ≤ 104500000 ∧ (∀ t, board.word t 0x7E101070 < 2 ^ 24)
    ∧ ∃ evs, (set_clk_frequency board .CM_GPCLK0 104500000 2 Process.start).state.trace
        = Process.start.trace ++ evs
      ∧ ∀ a w, Event.store a w ∈ evs →
          (a = 0x7E101074 ∨ a = 0x7E101070) ∧ w < 2 ^ 32 ∧ w >>> 24 = 0x5A :=
  ⟨by decide, board_ctl_lt,
    set_clk_frequency_password board 104500000 (by decide) board_ctl_lt 2 Process.start⟩

/-! ## The whole run: start, carrier, signal, clean-up -/

theorem stop_clk_generator_settles {pf : Platform} (hm : pf.Mappable) (gpclk_number : CM_GPCLK)
    (clk_source : CM_SRC) {busy0 : Bool}
    (hf : BusyFollowsEnab pf.bus (ctlReg gpclk_number) busy0) (fuel : Nat) (s : Process) :
    ∃ s1, stop_clk_generator pf gpclk_number clk_source (fuel + 2) s = .ret () s1
      ∧ pf.word s1.trace (ctlReg gpclk_number) &&& CM_BUSY = 0 := by
  by_cases hb : pf.word s.trace (ctlReg gpclk_number) &&& CM_BUSY = 0
  · refine ⟨_, stop_clk_generator_idle hm gpclk_number clk_source (fuel + 1) s hb, ?_⟩
    rw [after_trace]
    have h := (word_after_load hf s.trace (ctlReg gpclk_number)
      (pf.word s.trace (ctlReg gpclk_number))).not
    simpa using h.mpr (by simpa using hb)
  · obtain ⟨c0, c1, h, -, -⟩ := stop_clk_generator_busy_ex hm gpclk_number clk_source hf fuel s hb
    refine ⟨_, h, ?_⟩
    rw [after_trace]
    have e : s.trace ++ [Event.load (ctlReg gpclk_number) c0,
        Event.store (ctlReg gpclk_number) (0x5A000000 ||| clk_source.val),
        Event.load (ctlReg gpclk_number) c1]
        = (s.trace ++ [Event.load (ctlReg gpclk_number) c0]
            ++ [Event.store (ctlReg gpclk_number) (0x5A000000 ||| clk_source.val)])
          ++ [Event.load (ctlReg gpclk_number) c1] := by simp
    rw [e]
    have h1 := (word_after_load hf (s.trace ++ [Event.load (ctlReg gpclk_number) c0]
      ++ [Event.store (ctlReg gpclk_number) (0x5A000000 ||| clk_source.val)])
      (ctlReg gpclk_number) c1).not
    have h2 := (word_after_store hf (s.trace ++ [Event.load (ctlReg gpclk_number) c0])
      (0x5A000000 ||| clk_source.val)).not
    have h3 : ¬ (0x5A000000 ||| clk_source.val) &&& CM_ENAB ≠ 0 := by
      simpa using (disable_word clk_source).2.1
    simpa using h1.mpr (h2.mpr h3)

theorem start_clk_generator_returns {pf : Platform} (hm : pf.Mappable) (gpclk_number : CM_GPCLK)
    (div : Nat) (clk_source : CM_SRC) (mash_stage : CM_MASH) {busy0 : Bool}
    (hf : BusyFollowsEnab pf.bus (ctlReg gpclk_number) busy0) (fuel : Nat) (s : Process) :
    ∃ s1, start_clk_generator pf gpclk_number div clk_source mash_stage (fuel + 2) s
      = .ret () s1 := by
  obtain ⟨s1, h1, -⟩ := stop_clk_generator_settles hm gpclk_number clk_source hf fuel s
  unfold start_clk_generator
  rw [h1, bind_ret, reg_set_ok hm, bind_ret, reg_set_ok hm, bind_ret,
    (setup_word mash_stage clk_source).1]
  have hc : pf.word ((s1.after pf
      [Event.store (divReg gpclk_number) ((CM_PASSWD ||| div) % 2 ^ 32)]).after pf
      [Event.store (ctlReg gpclk_number)
        (0x5A000000 ||| mash_stage.val ||| clk_source.val)]).trace
      (ctlReg gpclk_number) &&& CM_BUSY = 0 := by
    have h := (word_after_store hf (s1.trace ++
      [Event.store (divReg gpclk_number) ((CM_PASSWD ||| div) % 2 ^ 32)])
      (0x5A000000 ||| mash_stage.val ||| clk_source.val)).not
    have h3 : ¬ (0x5A000000 ||| mash_stage.val ||| clk_source.val) &&& CM_ENAB ≠ 0 := by
      simpa using (setup_word mash_stage clk_source).2.1
    simpa [after_trace] using h.mpr h3
  obtain ⟨v1, r, v2, he, -⟩ := enable_loop_ok hm gpclk_number hf fuel _ hc
  exact ⟨_, he⟩

theorem not_isStoreTo_store {a address : Nat} (w : Nat) (h : a ≠ address) :
    ¬ (Event.store a w).isStoreTo address := fun h2 => h h2

theorem noStore_start_clk_generator (pf : Platform) (div : Nat) (fuel : Nat) (s : Process) :
    Emits (fun e => ¬ e.isStoreTo 0x7E200000) s
      (start_clk_generator pf .CM_GPCLK0 div .CM_PLLD .CM_MASH_1S fuel s).state :=
  emits_start_clk_generator _ pf .CM_GPCLK0 div .CM_PLLD .CM_MASH_1S
    (fun _ h => h) (not_isStoreTo_store _ (by decide)) (not_isStoreTo_store _ (by decide))
    (not_isStoreTo_store _ (by decide)) (fun _ => not_isStoreTo_store _ (by decide)) fuel s

theorem noStore_stop_clk_generator (pf : Platform) (fuel : Nat) (s : Process) :
    Emits (fun e => ¬ e.isStoreTo 0x7E200000) s
      (stop_clk_generator pf .CM_GPCLK0 .CM_PLLD fuel s).state :=
  emits_stop_clk_generator _ pf .CM_GPCLK0 .CM_PLLD (fun _ h => h)
    (not_isStoreTo_store _ (by decide)) fuel s

theorem word_of_cell {pf : Platform} {address v0 : Nat} (hcell : MemoryCell pf.bus address v0)
    (t evs : List Event) (w : Nat) (hw : w < 2 ^ 32)
    (hno : ∀ e ∈ evs, ¬ e.isStoreTo address) :
    pf.word (t ++ [Event.store address w] ++ evs) address = w := by
  unfold Platform.word
  rw [hcell, lastStore_of_no_store address _ evs hno, lastStore_append_store, Option.getD_some,
    Nat.mod_eq_of_lt hw]

/-- Setting a pin function twice leaves only the second function. -/
theorem gpfselWord_gpfselWord (value k : Nat) (f1 f2 : GP_FUNCTION) :
    gpfselWord (gpfselWord value k f1) k f2 = gpfselWord value k f2 := by
  apply Nat.eq_of_testBit_eq
  intro j
  rw [testBit_gpfselWord, testBit_gpfselWord, testBit_gpfselWord]
  by_cases hj : j < 32 <;> by_cases h : 3 * k ≤ j ∧ j < 3 * k + 3 <;> simp [hj, h]

theorem gpfselWord_output (value : Nat) (hv : value < 2 ^ 32) :
    gpfselWord value 4 .GP_OUTPUT = (value &&& 0xFFFF8FFF) ||| 0x1000 := by
  unfold gpfselWord
  have h1 : not32 (0b111 <<< (3 * 4)) = 0xFFFF8FFF := by decide
  have h2 : GP_FUNCTION.GP_OUTPUT.val <<< (3 * 4) = 0x1000 := by decide
  rw [h1, h2]
  apply Nat.mod_eq_of_lt
  exact Nat.or_lt_two_pow (lt_of_le_of_lt Nat.and_le_left hv) (by decide)

theorem set_signal_handler_trace (pf : Platform) (signum : Int) (s : Process) :
    (set_signal_handler pf signum s).trace = s.trace := by
  unfold set_signal_handler
  split_ifs <;> rfl

theorem mem_handlers_set_signal_handler (pf : Platform) (signum c : Int) (s : Process) :
    c ∈ (set_signal_handler pf signum s).handlers
      ↔ (c = signum ∧ pf.signal signum = true) ∨ c ∈ s.handlers := by
  unfold set_signal_handler
  by_cases h : pf.signal signum = true
  · simp [h]
  · simp [h]

/-- After `run_forever` has set its handlers, the signals handled are SIGQUIT
and SIGINT where `signal` succeeded, besides those handled before. -/
theorem mem_handlers_run_forever (pf : Platform) (c : Int) (s : Process) :
    c ∈ (set_signal_handler pf SIGINT (set_signal_handler pf SIGQUIT s)).handlers
      ↔ ((c = SIGQUIT ∨ c = SIGINT) ∧ pf.signal c = true) ∨ c ∈ s.handlers := by
  rw [mem_handlers_set_signal_handler, mem_handlers_set_signal_handler]
  constructor
  · rintro (⟨h1, h2⟩ | ⟨h1, h2⟩ | h)
    · exact Or.inl ⟨Or.inr h1, by rw [h1]; exact h2⟩
    · exact Or.inl ⟨Or.inl h1, by rw [h1]; exact h2⟩
    · exact Or.inr h
  · rintro (⟨h1 | h1, h2⟩ | h)
    · exact Or.inr (Or.inl ⟨h1, by rw [← h1]; exact h2⟩)
    · exact Or.inl ⟨h1, by rw [← h1]; exact h2⟩
    · exact Or.inr (Or.inr h)

theorem run_forever_handled (pf : Platform) {signum : Int}
    (hsig : signum = SIGQUIT ∨ signum = SIGINT) (hok : pf.signal signum = true) (fuel : Nat)
    (s : Process) :
    run_forever pf signum fuel s
      = exit_handler pf signum fuel
          (set_signal_handler pf SIGINT (set_signal_handler pf SIGQUIT s)) := by
  unfold run_forever pause
  rw [if_pos ((mem_handlers_run_forever pf signum s).mpr (Or.inl ⟨hsig, hok⟩))]

theorem run_forever_unhandled (pf : Platform) {signum : Int}
    (hsig : ¬ ((signum = SIGQUIT ∨ signum = SIGINT) ∧ pf.signal signum = true)) (fuel : Nat)
    (s : Process) (hs : signum ∉ s.handlers) :
    run_forever pf signum fuel s
      = .killed signum (set_signal_handler pf SIGINT (set_signal_handler pf SIGQUIT s)) := by
  unfold run_forever pause
  rw [if_neg]
  rw [mem_handlers_run_forever]
  rintro (h | h)
  · exact hsig h
  · exact hs h

theorem run_forever_trace (pf : Platform) (signum : Int) (fuel : Nat) (s : Process) :
    ∃ evs, (run_forever pf signum fuel s).state.trace = s.trace ++ evs := by
  unfold run_forever pause
  split_ifs
  · obtain ⟨evs, ht, -⟩ := emits_exit_handler pf signum fuel
      (set_signal_handler pf SIGINT (set_signal_handler pf SIGQUIT s))
    rw [set_signal_handler_trace, set_signal_handler_trace] at ht
    exact ⟨evs, ht⟩
  · exact ⟨[], by simp [Result.state, set_signal_handler_trace]⟩

theorem exit_handler_restores {pf : Platform} (hm : pf.Mappable) {v0 : Nat}
    (hcell : MemoryCell pf.bus 0x7E200000 v0) {busy0 : Bool}
    (hf : BusyFollowsEnab pf.bus (ctlReg .CM_GPCLK0) busy0) (signum : Int) (fuel : Nat)
    (s : Process) :
    ∃ s1, exit_handler pf signum (fuel + 2) s = .exit signum s1
      ∧ pf.word s1.trace 0x7E200000 = gpfselWord (pf.word s.trace 0x7E200000) 4 .GP_OUTPUT := by
  obtain ⟨s4, h4, -⟩ := stop_clk_generator_settles hm .CM_GPCLK0 .CM_PLLD hf fuel
    ((puts "Cleaning resources..." s).after pf
      [Event.load (GPFSEL.getD (4 / 10) 0)
        (pf.word (puts "Cleaning resources..." s).trace (GPFSEL.getD (4 / 10) 0)),
       Event.store (GPFSEL.getD (4 / 10) 0)
        (gpfselWord (pf.word (puts "Cleaning resources..." s).trace (GPFSEL.getD (4 / 10) 0))
          (4 % 10) .GP_OUTPUT)])
  have e4 := noStore_stop_clk_generator pf (fuel + 2)
    ((puts "Cleaning resources..." s).after pf
      [Event.load (GPFSEL.getD (4 / 10) 0)
        (pf.word (puts "Cleaning resources..." s).trace (GPFSEL.getD (4 / 10) 0)),
       Event.store (GPFSEL.getD (4 / 10) 0)
        (gpfselWord (pf.word (puts "Cleaning resources..." s).trace (GPFSEL.getD (4 / 10) 0))
          (4 % 10) .GP_OUTPUT)])
  rw [h4] at e4
  obtain ⟨evs, ht, hno⟩ := e4
  refine ⟨s4, ?_, ?_⟩
  · unfold exit_handler
    rw [set_gp_func_ok hm (by norm_num) .GP_OUTPUT, bind_ret, h4, bind_ret]
  · simp only [Result.state] at ht
    rw [ht, after_trace]
    have e : (puts "Cleaning resources..." s).trace ++
        [Event.load (GPFSEL.getD (4 / 10) 0)
          (pf.word (puts "Cleaning resources..." s).trace (GPFSEL.getD (4 / 10) 0)),
         Event.store (GPFSEL.getD (4 / 10) 0)
          (gpfselWord (pf.word (puts "Cleaning resources..." s).trace (GPFSEL.getD (4 / 10) 0))
            (4 % 10) .GP_OUTPUT)] ++ evs
        = (s.trace ++ [Event.load 0x7E200000 (pf.word s.trace 0x7E200000)])
          ++ [Event.store 0x7E200000 (gpfselWord (pf.word s.trace 0x7E200000) 4 .GP_OUTPUT)]
          ++ evs := by
      simp only [List.append_assoc, List.singleton_append]
      rfl
    rw [e]
    exact word_of_cell hcell _ evs _ (gpfselWord_lt _ _ _) hno

theorem main_carrier {pf : Platform} (hm : pf.Mappable) {v0 : Nat}
    (hcell : MemoryCell pf.bus 0x7E200000 v0) {busy0 : Bool}
    (hf : BusyFollowsEnab pf.bus (ctlReg .CM_GPCLK0) busy0) (d : Nat) (fuel : Nat)
    (s : Process) :
    ∃ s2, (set_gp_func pf 4 .GP_AF0 s).bind
        (fun _ s1 => start_clk_generator pf .CM_GPCLK0 d .CM_PLLD .CM_MASH_1S (fuel + 2) s1)
        = .ret () s2
      ∧ pf.word s2.trace 0x7E200000 = gpfselWord (pf.word s.trace 0x7E200000) 4 .GP_AF0 := by
  obtain ⟨s2, h2⟩ := start_clk_generator_returns hm .CM_GPCLK0 d .CM_PLLD .CM_MASH_1S hf fuel
    (s.after pf
      [Event.load (GPFSEL.getD (4 / 10) 0) (pf.word s.trace (GPFSEL.getD (4 / 10) 0)),
       Event.store (GPFSEL.getD (4 / 10) 0)
        (gpfselWord (pf.word s.trace (GPFSEL.getD (4 / 10) 0)) (4 % 10) .GP_AF0)])
  have e2 := noStore_start_clk_generator pf d (fuel + 2)
    (s.after pf
      [Event.load (GPFSEL.getD (4 / 10) 0) (pf.word s.trace (GPFSEL.getD (4 / 10) 0)),
       Event.store (GPFSEL.getD (4 / 10) 0)
        (gpfselWord (pf.word s.trace (GPFSEL.getD (4 / 10) 0)) (4 % 10) .GP_AF0)])
  rw [h2] at e2
  obtain ⟨evs, ht, hno⟩ := e2
  refine ⟨s2, ?_, ?_⟩
  · rw [set_gp_func_ok hm (by norm_num) .GP_AF0, bind_ret, h2]
  · simp only [Result.state] at ht
    rw [ht, after_trace]
    have e : s.trace ++
        [Event.load (GPFSEL.getD (4 / 10) 0) (pf.word s.trace (GPFSEL.getD (4 / 10) 0)),
         Event.store (GPFSEL.getD (4 / 10) 0)
          (gpfselWord (pf.word s.trace (GPFSEL.getD (4 / 10) 0)) (4 % 10) .GP_AF0)] ++ evs
        = (s.trace ++ [Event.load 0x7E200000 (pf.word s.trace 0x7E200000)])
          ++ [Event.store 0x7E200000 (gpfselWord (pf.word s.trace 0x7E200000) 4 .GP_AF0)]
          ++ evs := by
      simp only [List.append_assoc, List.singleton_append]
      rfl
    rw [e]
    exact word_of_cell hcell _ evs _ (gpfselWord_lt _ _ _) hno

/-- C4: on a platform where mapping succeeds, GPFSEL0 is a memory cell and
the clock generator answers at once, for every word `v` that GPFSEL0 holds when
the program starts and every frequency with a defined divisor: `main` sets
GPIO4 to AF0 and starts the carrier, and when one of the two termination
signals whose handler `run_forever` has installed (SIGQUIT or SIGINT, `signal`
having succeeded for it) arrives during the pause, `exit_handler` ends the
process with exit status equal to the signal number, GPFSEL0 then holding `v`
with bits 14..12 replaced by `0b001`: GPIO4 is an output and every other bit of
the register is as it was. -/
theorem main_restores_pin (pf : Platform) (hm : pf.Mappable) (v0 : Nat)
    (hcell : MemoryCell pf.bus 0x7E200000 v0) (busy0 : Bool)
    (hf : BusyFollowsEnab pf.bus 0x7E101070 busy0) (argv : List String) (f : Nat)
    (hfreq : carrier_frequency argv = some f) (h477 : 477 ≤ f) (signum : Int)
    (hsig : signum = SIGQUIT ∨ signum = SIGINT) (hok : pf.signal signum = true) (fuel : Nat)
    (s : Process) :
    ∃ s1, main pf argv signum (fuel + 2) s = .exit signum s1
      ∧ pf.word s1.trace 0x7E200000
          = gpfselWord (gpfselWord (pf.word s.trace 0x7E200000) 4 .GP_AF0) 4 .GP_OUTPUT
      ∧ pf.word s1.trace 0x7E200000 = (pf.word s.trace 0x7E200000 &&& 0xFFFF8FFF) ||| 0x1000
      ∧ (pf.word s1.trace 0x7E200000 >>> 12) &&& 0b111 = 0b001
      ∧ ∀ j, j < 32 → ¬ (12 ≤ j ∧ j < 15) →
          (pf.word s1.trace 0x7E200000).testBit j = (pf.word s.trace 0x7E200000).testBit j := by
  obtain ⟨d, hd, -⟩ := clock_divisor_defined f h477
  obtain ⟨s2, h2, hw2⟩ := main_carrier hm hcell hf d fuel s
  obtain ⟨s4, h4, hw4⟩ := exit_handler_restores hm hcell hf signum fuel
    (set_signal_handler pf SIGINT (set_signal_handler pf SIGQUIT
      { s2 with stdout := s2.stdout ++ [transmittingLine f] }))
  have hw : pf.word s4.trace 0x7E200000
      = gpfselWord (gpfselWord (pf.word s.trace 0x7E200000) 4 .GP_AF0) 4 .GP_OUTPUT := by
    rw [hw4, set_signal_handler_trace, set_signal_handler_trace]
    show gpfselWord (pf.word s2.trace 0x7E200000) 4 .GP_OUTPUT = _
    rw [hw2]
  have hw' : pf.word s4.trace 0x7E200000
      = gpfselWord (pf.word s.trace 0x7E200000) 4 .GP_OUTPUT := by
    rw [hw, gpfselWord_gpfselWord]
  refine ⟨s4, ?_, hw, ?_, ?_, ?_⟩
  · have hbody : (set_gp_func pf 4 .GP_AF0 s).bind
        (fun _ s1 => (set_clk_frequency pf .CM_GPCLK0 f (fuel + 2) s1).bind fun _ s2 =>
          (run_forever pf signum (fuel + 2)
            { s2 with stdout := s2.stdout ++ [transmittingLine f] }).bind
              fun _ s3 => (Result.ret 0 s3 : Result Int))
        = .exit signum s4 := by
      rw [set_gp_func_ok hm (by norm_num) .GP_AF0, bind_ret] at h2 ⊢
      simp only [set_clk_frequency, hd]
      rw [h2, bind_ret, run_forever_handled pf hsig hok, h4, bind_exit]
    unfold main
    rw [hfreq]
    exact hbody
  · rw [hw', gpfselWord_output _ (word_lt pf s.trace _)]
  · rw [hw']
    have h := gpfselWord_field (pf.word s.trace 0x7E200000) 4 .GP_OUTPUT (by norm_num)
    simpa [GP_FUNCTION.val] using h
  · intro j hj hout
    rw [hw', testBit_gpfselWord]
    have hout2 : ¬ (3 * 4 ≤ j ∧ j < 3 * 4 + 3) := by simpa using hout
    simp [hj, hout2]

/-- Witness for C4: a run without arguments on the zeroed board, ended by
SIGINT, leaves `0x1000` in GPFSEL0. -/
theorem main_restores_pin_witness :
    board.Mappable ∧ MemoryCell board.bus 0x7E200000 0
    ∧ BusyFollowsEnab board.bus 0x7E101070 false
    ∧ carrier_frequency ["carrier_generator"] = some 104500000 ∧ 477 ≤ 104500000
    ∧ ((2 : Int) = SIGQUIT ∨ (2 : Int) = SIGINT) ∧ board.signal 2 = true
    ∧ ∃ s1, main board ["carrier_generator"] 2 2 Process.start = .exit 2 s1
      ∧ board.word s1.trace 0x7E200000 = 0x1000 :=
  ⟨board_mappable, registerFile_memoryCell (fun _ => 0) 0x7E200000 (by decide),
    registerFile_busyFollowsEnab (fun _ => 0) _ (by decide) false (by decide),
    by decide, by decide, Or.inr rfl, rfl,
    by
      obtain ⟨s1, h1, -, h2, -⟩ := main_restores_pin board board_mappable 0
        (registerFile_memoryCell (fun _ => 0) 0x7E200000 (by decide)) false
        (registerFile_busyFollowsEnab (fun _ => 0) _ (by decide) false (by decide))
        ["carrier_generator"] 104500000 (by decide) (by decide) 2 (Or.inr rfl) rfl 0
        Process.start
      exact ⟨s1, h1, h2⟩⟩

/-! ## The command line -/

theorem digitChar_toNat {d : Nat} (hd : d < 10) : (digitChar d).toNat = 48 + d := by
  unfold digitChar
  interval_cases d <;> rfl

theorem atoiDigits_digits (ds : List Nat) (hds : ∀ d ∈ ds, d < 10) (acc : Nat) :
    atoiDigits acc (ds.map digitChar) = ds.foldl (fun a d => a * 10 + d) acc := by
  induction ds generalizing acc with
  | nil => rfl
  | cons d rest ih =>
    have hd : d < 10 := hds d (by simp)
    have hc := digitChar_toNat hd
    simp only [List.map_cons, atoiDigits, List.foldl_cons]
    rw [if_pos (by omega), hc, ih (fun e he => hds e (by simp [he]))]
    congr 1
    omega

theorem foldl_reverse_digits (L : List Nat) :
    L.reverse.foldl (fun a d => a * 10 + d) 0 = Nat.ofDigits 10 L := by
  induction L with
  | nil => rfl
  | cons d rest ih =>
    rw [List.reverse_cons, List.foldl_append, ih, Nat.ofDigits_cons]
    simp only [List.foldl_cons, List.foldl_nil]
    ring

theorem dropWhile_isspace_digits (ds : List Nat) (hds : ∀ d ∈ ds, d < 10) :
    (ds.map digitChar).dropWhile isspace = ds.map digitChar := by
  cases ds with
  | nil => rfl
  | cons d rest =>
    have hd : d < 10 := hds d (by simp)
    have hc := digitChar_toNat hd
    have hs : isspace (digitChar d) = false := by
      unfold isspace
      rw [hc]
      simp only [Bool.or_eq_false_iff, Bool.and_eq_false_iff, decide_eq_false_iff_not]
      omega
    simp [List.dropWhile, hs]

theorem atoiValue_digits (ds : List Nat) (hds : ∀ d ∈ ds, d < 10) :
    atoiValue (ds.map digitChar) = (ds.foldl (fun a d => a * 10 + d) 0 : Nat) := by
  cases ds with
  | nil => rfl
  | cons d rest =>
    have hd : d < 10 := hds d (by simp)
    have hc := digitChar_toNat hd
    have h := atoiDigits_digits (d :: rest) hds 0
    simp only [List.map_cons] at h ⊢
    have h45 : ¬ (digitChar d).toNat = 45 := by omega
    have h43 : ¬ (digitChar d).toNat = 43 := by omega
    simp only [atoiValue, if_neg h45, if_neg h43, h]

/-- `atoi` reads a decimal numeral back. -/
theorem atoi_decimal (n : Nat) (hn : n < 2 ^ 31) : atoi (decimal n) = some (n : Int) := by
  have hds : ∀ d ∈ (Nat.digits 10 n).reverse, d < 10 := fun d hd =>
    Nat.digits_lt_base (by norm_num) (List.mem_reverse.mp hd)
  have hv : atoiValue ((decimal n).toList.dropWhile isspace) = (n : Int) := by
    unfold decimal
    simp only [String.toList]
    rw [dropWhile_isspace_digits _ hds, atoiValue_digits _ hds, foldl_reverse_digits,
      Nat.ofDigits_digits]
  unfold atoi
  rw [hv, if_pos]
  constructor
  · have : (0 : Int) ≤ (n : Int) := Int.natCast_nonneg n
    omega
  · exact_mod_cast hn

theorem carrier_frequency_decimal (prog : String) (n : Nat) (hn : n < 2 ^ 31)
    (rest : List String) : carrier_frequency (prog :: decimal n :: rest) = some n := by
  unfold carrier_frequency
  have hlen : 1 < (prog :: decimal n :: rest).length := by simp
  rw [if_pos hlen]
  simp only [List.getD_cons_succ, List.getD_cons_zero]
  rw [atoi_decimal n hn]
  simp only [Option.map_some']
  congr 1
  have h32 : (n : Int) % 2 ^ 32 = n := by
    apply Int.emod_eq_of_lt (Int.natCast_nonneg n)
    have : (n : Int) < 2 ^ 31 := by exact_mod_cast hn
    omega
  rw [h32]
  exact Int.toNat_natCast n

theorem start_clk_generator_stores_div {pf : Platform} (hm : pf.Mappable)
    (gpclk_number : CM_GPCLK) {div : Nat} (hd : div < 2 ^ 32) (clk_source : CM_SRC)
    (mash_stage : CM_MASH) {busy0 : Bool}
    (hf : BusyFollowsEnab pf.bus (ctlReg gpclk_number) busy0) (fuel : Nat) (s : Process) :
    ∃ s1, start_clk_generator pf gpclk_number div clk_source mash_stage (fuel + 2) s
        = .ret () s1
      ∧ Event.store (divReg gpclk_number) (0x5A000000 ||| div) ∈ s1.trace := by
  obtain ⟨s1, h1⟩ := start_clk_generator_returns hm gpclk_number div clk_source mash_stage hf
    fuel s
  refine ⟨s1, h1, ?_⟩
  obtain ⟨evs, ht, hg⟩ := start_clk_generator_guard pf gpclk_number div clk_source mash_stage
    (fuel + 2) s
  rw [h1] at ht
  simp only [Result.state] at ht
  unfold start_clk_generator at h1
  obtain ⟨s2, h2, -⟩ := stop_clk_generator_settles hm gpclk_number clk_source hf fuel s
  rw [h2, bind_ret, reg_set_ok hm, bind_ret, divisor_word hd] at h1
  have he := emits_bind (fun _ => True) _ _ _
    (emits_reg_set (fun _ => True) pf (ctlReg gpclk_number)
      (CM_PASSWD ||| mash_stage.val ||| clk_source.val)
      (s2.after pf [Event.store (divReg gpclk_number) (0x5A000000 ||| div)]) trivial)
    (fun _ s3 _ => emits_enable_loop (fun _ => True) pf gpclk_number (fun _ => trivial)
      (fun _ => trivial) (fuel + 2) s3)
  rw [h1] at he
  obtain ⟨post, hp, -⟩ := he
  simp only [Result.state, after_trace] at hp
  rw [hp]
  simp

theorem state_bind_ret {α β : Type} (r : Result α) (b : β) :
    (r.bind fun _ s => Result.ret b s).state = r.state := by
  cases r <;> rfl

theorem main_stores_divisor {pf : Platform} (hm : pf.Mappable) {busy0 : Bool}
    (hf : BusyFollowsEnab pf.bus (ctlReg .CM_GPCLK0) busy0) (argv : List String) (f d : Nat)
    (hfreq : carrier_frequency argv = some f) (hd : clock_divisor f = some d)
    (hd32 : d < 2 ^ 32) (signum : Int) (fuel : Nat) (s : Process) :
    Event.store 0x7E101074 (0x5A000000 ||| d) ∈ (main pf argv signum (fuel + 2) s).state.trace := by
  obtain ⟨s2, h2, hmem⟩ := start_clk_generator_stores_div hm .CM_GPCLK0 hd32 .CM_PLLD
    .CM_MASH_1S hf fuel
    (s.after pf
      [Event.load (GPFSEL.getD (4 / 10) 0) (pf.word s.trace (GPFSEL.getD (4 / 10) 0)),
       Event.store (GPFSEL.getD (4 / 10) 0)
        (gpfselWord (pf.word s.trace (GPFSEL.getD (4 / 10) 0)) (4 % 10) .GP_AF0)])
  have hbody : (set_gp_func pf 4 .GP_AF0 s).bind
      (fun _ s1 => (set_clk_frequency pf .CM_GPCLK0 f (fuel + 2) s1).bind fun _ s2 =>
        (run_forever pf signum (fuel + 2)
          { s2 with stdout := s2.stdout ++ [transmittingLine f] }).bind
            fun _ s3 => (Result.ret 0 s3 : Result Int))
      = (run_forever pf signum (fuel + 2)
          { s2 with stdout := s2.stdout ++ [transmittingLine f] }).bind
            fun _ s3 => (Result.ret 0 s3 : Result Int) := by
    rw [set_gp_func_ok hm (by norm_num) .GP_AF0, bind_ret]
    simp only [set_clk_frequency, hd]
    rw [h2, bind_ret]
  have hmain : main pf argv signum (fuel + 2) s
      = (run_forever pf signum (fuel + 2)
          { s2 with stdout := s2.stdout ++ [transmittingLine f] }).bind
            fun _ s3 => (Result.ret 0 s3 : Result Int) := by
    unfold main
    rw [hfreq]
    exact hbody
  rw [hmain, state_bind_ret]
  obtain ⟨evs, ht⟩ := run_forever_trace pf signum (fuel + 2)
    { s2 with stdout := s2.stdout ++ [transmittingLine f] }
  rw [ht]
  exact List.mem_append_left _ hmem

/-- C5: without a command-line argument `main` calls `set_clk_frequency` with
104500000, the divisor computed is 19598, and `0x5A004C8E` is stored to CM_GP0DIV
(0x7E101074); with an argument the frequency is `atoi(argv[1])` as a 32-bit word,
which for a decimal numeral below `2 ^ 31` is the number itself: "106200000"
gives 106200000, divisor 19284, stored as `0x5A004B54`. -/
theorem main_frequency (pf : Platform) (hm : pf.Mappable) (busy0 : Bool)
    (hf : BusyFollowsEnab pf.bus 0x7E101070 busy0) (prog : String) (signum : Int)
    (fuel : Nat) (s : Process) :
    carrier_frequency [prog] = some 104500000
    ∧ main pf [prog] signum fuel s
        = ((set_gp_func pf 4 .GP_AF0 s).bind fun _ s1 =>
            (set_clk_frequency pf .CM_GPCLK0 104500000 fuel s1).bind fun _ s2 =>
              (run_forever pf signum fuel
                { s2 with stdout := s2.stdout ++ [transmittingLine 104500000] }).bind
                  fun _ s3 => (Result.ret 0 s3 : Result Int))
    ∧ clock_divisor 104500000 = some 19598
    ∧ Event.store 0x7E101074 0x5A004C8E ∈ (main pf [prog] signum (fuel + 2) s).state.trace
    ∧ (∀ arg rest, carrier_frequency (prog :: arg :: rest)
        = (atoi arg).map fun z => (z % 2 ^ 32).toNat)
    ∧ (∀ n rest, n < 2 ^ 31 → carrier_frequency (prog :: decimal n :: rest) = some n)
    ∧ carrier_frequency [prog, "106200000"] = some 106200000
    ∧ clock_divisor 106200000 = some 19284
    ∧ Event.store 0x7E101074 0x5A004B54
        ∈ (main pf [prog, "106200000"] signum (fuel + 2) s).state.trace := by
  have h1 : carrier_frequency [prog] = some 104500000 := rfl
  have ha : atoi "106200000" = some 106200000 := by decide
  have h2 : carrier_frequency [prog, "106200000"] = some 106200000 := by
    simp [carrier_frequency, ha]
  have d1 : clock_divisor 104500000 = some 19598 := by decide
  have d2 : clock_divisor 106200000 = some 19284 := by decide
  refine ⟨h1, ?_, d1, ?_, ?_, ?_, h2, d2, ?_⟩
  · unfold main
    rw [h1]
  · exact main_stores_divisor hm hf [prog] 104500000 19598 h1 d1 (by norm_num)
      signum fuel s
  · intro arg rest
    simp [carrier_frequency]
  · intro n rest hn
    exact carrier_frequency_decimal prog n hn rest
  · exact main_stores_divisor hm hf [prog, "106200000"] 106200000 19284 h2 d2
      (by norm_num) signum fuel s

/-- Witness for C5: a run without arguments on the zeroed board. -/
theorem main_frequency_witness :
    board.Mappable ∧ BusyFollowsEnab board.bus 0x7E101070 false
    ∧ Event.store 0x7E101074 0x5A004C8E
        ∈ (main board ["carrier_generator"] 2 2 Process.start).state.trace :=
  ⟨board_mappable,
    registerFile_busyFollowsEnab (fun _ => 0) _ (by decide) false (by decide),
    (main_frequency board board_mappable false
      (registerFile_busyFollowsEnab (fun _ => 0) _ (by decide) false (by decide))
      "carrier_generator" 2 0 Process.start).2.2.2.1⟩

/-- Witness for C2: GPIO4 on the zeroed board, where the call stores a word
with `0b100` in bits 14..12 to GPFSEL0. -/
theorem set_gp_func_sets_field_witness :
    board.Mappable ∧ 4 ≤ 53
    ∧ ∃ w, set_gp_func board 4 .GP_AF0 Process.start =
        .ret () (Process.start.after board
          [Event.load 0x7E200000 (board.word Process.start.trace 0x7E200000),
           Event.store 0x7E200000 w])
      ∧ (w >>> 12) &&& 0b111 = 0b100 :=
  ⟨board_mappable, by decide,
    (set_gp_func_sets_field board board_mappable 4 (by decide) .GP_AF0 Process.start).2⟩

/-! ## A signal without handler -/

theorem handlers_bind {α β : Type} (s : Process) (r : Result α) (k : α → Process → Result β)
    (h1 : r.state.handlers = s.handlers)
    (h2 : ∀ a s1, r = .ret a s1 → (k a s1).state.handlers = s1.handlers) :
    (r.bind k).state.handlers = s.handlers := by
  cases r with
  | ret a s1 => exact (h2 a s1 rfl).trans h1
  | exit c s1 => exact h1
  | undefined s1 => exact h1
  | spinning s1 => exact h1
  | killed c s1 => exact h1

theorem handlers_check_peripheral (pf : Platform) (s : Process) :
    (check_peripheral pf s).state.handlers = s.handlers := by
  unfold check_peripheral map_peripheral map_memory
  by_cases h0 : s.MAP_ADDRESS = 0
  · cases h1 : pf.devmem <;> cases h2 : pf.mmap <;>
      simp [h0, h1, h2, Result.bind, Result.state, puts]
  · simp [h0, Result.state]

theorem handlers_reg_get (pf : Platform) (address : Nat) (s : Process) :
    (reg_get pf address s).state.handlers = s.handlers := by
  unfold reg_get
  exact handlers_bind s _ _ (handlers_check_peripheral pf s) (fun _ _ _ => rfl)

theorem handlers_reg_set (pf : Platform) (address value : Nat) (s : Process) :
    (reg_set pf address value s).state.handlers = s.handlers := by
  unfold reg_set
  exact handlers_bind s _ _ (handlers_check_peripheral pf s) (fun _ _ _ => rfl)

theorem handlers_set_gp_func (pf : Platform) (pin : Nat) (function : GP_FUNCTION)
    (s : Process) : (set_gp_func pf pin function s).state.handlers = s.handlers := by
  unfold set_gp_func
  split_ifs
  · exact handlers_bind s _ _ (handlers_reg_get pf _ s)
      (fun _ s1 _ => handlers_reg_set pf _ _ s1)
  · rfl

theorem handlers_stop_clk_generator (pf : Platform) (gpclk_number : CM_GPCLK)
    (clk_source : CM_SRC) (fuel : Nat) (s : Process) :
    (stop_clk_generator pf gpclk_number clk_source fuel s).state.handlers = s.handlers := by
  induction fuel generalizing s with
  | zero => rfl
  | succ fuel ih =>
    unfold stop_clk_generator
    apply handlers_bind s _ _ (handlers_reg_get pf _ s)
    intro v s1 _
    split_ifs
    · exact handlers_bind s1 _ _ (handlers_reg_set pf _ _ s1) (fun _ s2 _ => ih s2)
    · rfl

theorem handlers_enable_loop (pf : Platform) (gpclk_number : CM_GPCLK) (fuel : Nat)
    (s : Process) : (enable_loop pf gpclk_number fuel s).state.handlers = s.handlers := by
  induction fuel generalizing s with
  | zero => rfl
  | succ fuel ih =>
    unfold enable_loop
    apply handlers_bind s _ _ (handlers_reg_get pf _ s)
    intro v s1 _
    split_ifs
    · apply handlers_bind s1 _ _ (handlers_reg_get pf _ s1)
      intro r s2 _
      exact handlers_bind s2 _ _ (handlers_reg_set pf _ _ s2) (fun _ s3 _ => ih s3)
    · rfl

theorem handlers_start_clk_generator (pf : Platform) (gpclk_number : CM_GPCLK) (div : Nat)
    (clk_source : CM_SRC) (mash_stage : CM_MASH) (fuel : Nat) (s : Process) :
    (start_clk_generator pf gpclk_number div clk_source mash_stage fuel s).state.handlers
      = s.handlers := by
  unfold start_clk_generator
  apply handlers_bind s _ _ (handlers_stop_clk_generator pf gpclk_number clk_source fuel s)
  intro _ s1 _
  apply handlers_bind s1 _ _ (handlers_reg_set pf _ _ s1)
  intro _ s2 _
  exact handlers_bind s2 _ _ (handlers_reg_set pf _ _ s2)
    (fun _ s3 _ => handlers_enable_loop pf gpclk_number fuel s3)

/-- A signal for which no handler is installed (any signal other than SIGQUIT
and SIGINT, or one of the two where `signal` failed) ends the process during
the pause without clean-up: GPFSEL0 keeps GPIO4 in AF0. -/
theorem main_killed_without_handler (pf : Platform) (hm : pf.Mappable) (v0 : Nat)
    (hcell : MemoryCell pf.bus 0x7E200000 v0) (busy0 : Bool)
    (hf : BusyFollowsEnab pf.bus 0x7E101070 busy0) (argv : List String) (f : Nat)
    (hfreq : carrier_frequency argv = some f) (h477 : 477 ≤ f) (signum : Int)
    (hsig : ¬ ((signum = SIGQUIT ∨ signum = SIGINT) ∧ pf.signal signum = true)) (fuel : Nat)
    (s : Process) (hs : signum ∉ s.handlers) :
    ∃ s1, main pf argv signum (fuel + 2) s = .killed signum s1
      ∧ pf.word s1.trace 0x7E200000 = gpfselWord (pf.word s.trace 0x7E200000) 4 .GP_AF0
      ∧ (pf.word s1.trace 0x7E200000 >>> 12) &&& 0b111 = 0b100 := by
  obtain ⟨d, hd, -⟩ := clock_divisor_defined f h477
  obtain ⟨s2, h2, hw2⟩ := main_carrier hm hcell hf d fuel s
  have hh : s2.handlers = s.handlers := by
    have h := handlers_bind s (set_gp_func pf 4 .GP_AF0 s)
      (fun _ s1 => start_clk_generator pf .CM_GPCLK0 d .CM_PLLD .CM_MASH_1S (fuel + 2) s1)
      (handlers_set_gp_func pf 4 .GP_AF0 s)
      (fun _ s1 _ => handlers_start_clk_generator pf .CM_GPCLK0 d .CM_PLLD .CM_MASH_1S
        (fuel + 2) s1)
    rw [h2] at h
    exact h
  have hs2 : signum ∉ ({ s2 with stdout := s2.stdout ++ [transmittingLine f] } : Process).handlers := by
    show signum ∉ s2.handlers
    rw [hh]
    exact hs
  have hk := run_forever_unhandled pf hsig (fuel + 2)
    { s2 with stdout := s2.stdout ++ [transmittingLine f] } hs2
  refine ⟨set_signal_handler pf SIGINT (set_signal_handler pf SIGQUIT
    { s2 with stdout := s2.stdout ++ [transmittingLine f] }), ?_, ?_, ?_⟩
  · have hbody : (set_gp_func pf 4 .GP_AF0 s).bind
        (fun _ s1 => (set_clk_frequency pf .CM_GPCLK0 f (fuel + 2) s1).bind fun _ s2 =>
          (run_forever pf signum (fuel + 2)
            { s2 with stdout := s2.stdout ++ [transmittingLine f] }).bind
              fun _ s3 => (Result.ret 0 s3 : Result Int))
        = .killed signum (set_signal_handler pf SIGINT (set_signal_handler pf SIGQUIT
            { s2 with stdout := s2.stdout ++ [transmittingLine f] })) := by
      rw [set_gp_func_ok hm (by norm_num) .GP_AF0, bind_ret] at h2 ⊢
      simp only [set_clk_frequency, hd]
      rw [h2, bind_ret, hk]
      rfl
    unfold main
    rw [hfreq]
    exact hbody
  · rw [set_signal_handler_trace, set_signal_handler_trace]
    exact hw2
  · rw [set_signal_handler_trace, set_signal_handler_trace]
    show (pf.word s2.trace 0x7E200000 >>> 12) &&& 0b111 = 0b100
    rw [hw2]
    have h := gpfselWord_field (pf.word s.trace 0x7E200000) 4 .GP_AF0 (by norm_num)
    simpa [GP_FUNCTION.val] using h

end CarrierGenerator
